import Mathlib

/-!
Shallow embedding of the SPACE protocol library (space.py) and the
SPACESUIT scripting facade (spacesuit.py).

Text is modelled as a list of character codes (`List Nat`), binary wire
data as a list of byte values (`List Nat`, each < 256).  Python exceptions
are modelled by `Except Err`; each `Err` constructor names one Python
exception class that the source can raise.  Fallible loops carry an
explicit fuel argument: the Python loops in ListParser can diverge when an
inner parser consumes nothing, and `Err.fuelOut` marks exactly the runs
that exceed the supplied fuel.
-/

set_option maxRecDepth 20000

namespace Space

/-- Association-list lookup, modelling Python dict lookup (keys in our
concrete tables are unique, matching dict semantics). -/
def alookup {κ α : Type} [DecidableEq κ] : List (κ × α) → κ → Option α
  | [], _ => none
  | (k, v) :: rest, key => if k = key then some v else alookup rest key

/-- Python str.strip character class: space, tab, newline, CR, VT, FF. -/
def isPyWs (c : Nat) : Bool := c = 32 || c = 9 || c = 10 || c = 13 || c = 11 || c = 12

/-- Python str.strip(): remove leading and trailing whitespace. -/
def pyStrip (l : List Nat) : List Nat :=
  ((l.dropWhile isPyWs).reverse.dropWhile isPyWs).reverse

/-- Split a sequence at the first occurrence of a separator code, like
Python s.split(sep, 1) when the separator occurs. -/
def splitFirst (sep : Nat) : List Nat → Option (List Nat × List Nat)
  | [] => none
  | c :: rest =>
    if c = sep then some ([], rest)
    else (splitFirst sep rest).map (fun p => (c :: p.1, p.2))

/-- The prelude shared by the primitive from_text methods: split off the
first token at the separator, or take the whole text when the separator
does not occur. -/
def sepSplit (sep : Nat) (text : List Nat) : List Nat × List Nat :=
  (splitFirst sep text).getD (text, [])

/-- Little-endian value of a byte sequence. -/
def leVal : List Nat → Nat
  | [] => 0
  | b :: rest => b + 256 * leVal rest

/-- Little-endian byte encoding of a value in a fixed width (bytes). -/
def leBytes : Nat → Nat → List Nat
  | 0, _ => []
  | w + 1, v => v % 256 :: leBytes w (v / 256)

/-- Decimal digit characters of a natural number, most significant first
(empty for zero, matching Nat.digits). -/
def natDigitsBE (n : Nat) : List Nat :=
  (Nat.digits 10 n).reverse.map (fun d => d + 48)

/-- Python str() of a non-negative integer. -/
def natToDec (n : Nat) : List Nat :=
  if n = 0 then [48] else natDigitsBE n

/-- Python str() of an integer. -/
def intToDec (v : Int) : List Nat :=
  if v < 0 then 45 :: natToDec v.natAbs else natToDec v.toNat

/-- Value of a decimal digit character. -/
def decDigitVal (c : Nat) : Option Nat :=
  if 48 ≤ c ∧ c ≤ 57 then some (c - 48) else none

/-- Value of a hexadecimal digit character (either case). -/
def hexDigitVal (c : Nat) : Option Nat :=
  if 48 ≤ c ∧ c ≤ 57 then some (c - 48)
  else if 97 ≤ c ∧ c ≤ 102 then some (c - 87)
  else if 65 ≤ c ∧ c ≤ 70 then some (c - 55)
  else none

/-- Lower-case hexadecimal digit character of a value < 16. -/
def hexDigitChar (d : Nat) : Nat :=
  if d < 10 then d + 48 else d + 87

/-- Accumulating digit scan allowing PEP-515 single underscores between
digits, as Python int() accepts after the first digit. -/
def digitsValGo (dv : Nat → Option Nat) (base : Nat) : Nat → List Nat → Option Nat
  | acc, [] => some acc
  | acc, c :: rest =>
    if c = 95 then
      match rest with
      | [] => none
      | c2 :: rest2 =>
        match dv c2 with
        | some d => digitsValGo dv base (acc * base + d) rest2
        | none => none
    else
      match dv c with
      | some d => digitsValGo dv base (acc * base + d) rest
      | none => none

/-- Digit-group value: requires a leading digit, then digits with optional
single separating underscores. -/
def digitsVal (dv : Nat → Option Nat) (base : Nat) : List Nat → Option Nat
  | [] => none
  | c :: rest =>
    match dv c with
    | some d => digitsValGo dv base d rest
    | none => none

/-- Shared core of Python int(s) and int(s, 16): strip whitespace, then an
optional single sign, then a digit group. -/
def pyIntCore (body : List Nat → Option Nat) (s : List Nat) : Option Int :=
  let t := pyStrip s
  let t2 := if t.head? = some 43 ∨ t.head? = some 45 then t.tail else t
  match body t2 with
  | none => none
  | some n => some (if t.head? = some 45 then -(n : Int) else (n : Int))

/-- Python int(s) on decimal text. -/
def pyInt (s : List Nat) : Option Int :=
  pyIntCore (digitsVal decDigitVal 10) s

/-- Hex digit group with the optional 0x/0X prefix (and the optional
underscore directly after the prefix) that Python int(s, 16) accepts. -/
def hexBody : List Nat → Option Nat
  | 48 :: 120 :: rest =>
    match rest with
    | 95 :: r2 => digitsVal hexDigitVal 16 r2
    | _ => digitsVal hexDigitVal 16 rest
  | 48 :: 88 :: rest =>
    match rest with
    | 95 :: r2 => digitsVal hexDigitVal 16 r2
    | _ => digitsVal hexDigitVal 16 rest
  | rest => digitsVal hexDigitVal 16 rest

/-- Python int(s, 16). -/
def pyIntHex (s : List Nat) : Option Int :=
  pyIntCore hexBody s

/-- Modelled Python exception classes.  The SpaceError hierarchy of
space.py is listed first; the remaining constructors model built-in
exceptions that the source lets escape (struct.error from struct.unpack
and struct.pack, AssertionError from a bare assert, IndexError and KeyError
and TypeError from container access, AttributeError from attribute access,
OverflowError from struct.pack of a huge float).  `fuelOut` marks a run
that exceeded the model's fuel (a diverging Python loop), and
`unicodeUnmodelled` marks rendering of a non-ASCII string, which this
model does not cover (no claim depends on it). -/
inductive Err where
  | initError
  | parseError
  | identifierUnknown
  | parameterInvalid
  | parameterOutOfRange
  | spaceError
  | structError
  | assertError
  | indexError
  | keyError
  | typeError
  | attrError
  | overflowError
  | fuelOut
  | unicodeUnmodelled
  deriving DecidableEq

/-- One byte step of binascii.crc_hqx: CRC-16 with polynomial 0x1021,
most-significant-bit first, no reflection. -/
def crcHqxStep (crc b : Nat) : Nat :=
  (List.range 8).foldl
    (fun c _ =>
      if c &&& 0x8000 ≠ 0 then ((c <<< 1) ^^^ 0x1021) &&& 0xFFFF
      else (c <<< 1) &&& 0xFFFF)
    (crc ^^^ (b <<< 8))

/-- binascii.crc_hqx(data, init): the CRC-16/XMODEM family (polynomial
0x1021, no reflection, no final xor) with the given initial value. -/
def crcHqx (data : List Nat) (init : Nat) : Nat :=
  data.foldl crcHqxStep init

/-- SpaceProtocol.CRC_INITIAL. -/
def CRC_INITIAL : Nat := 0xFFFF

/-- SpaceProtocol.CRC_XOR. -/
def CRC_XOR : Nat := 0xACE1

/-- SpaceProtocol._crc16: binascii.crc_hqx with initial 0xFFFF, xor-ed
with the protocol constant 0xACE1. -/
def crc16 (data : List Nat) : Nat :=
  crcHqx data CRC_INITIAL ^^^ CRC_XOR

/-- One byte step of LoggingSpaceProtocol.crc32: xor the byte in, then
eight reflected (least-significant-bit first) shift steps. -/
def crc32Step (poly : Nat) (crc b : Nat) : Nat :=
  (List.range 8).foldl
    (fun c _ => if c &&& 1 = 1 then (c >>> 1) ^^^ poly else c >>> 1)
    (crc ^^^ b)

/-- LoggingSpaceProtocol.crc32(data): reflected CRC-32 with polynomial
0x82F63B78 (CRC-32C), initial 0xFFFFFFFF, final xor 0xFFFFFFFF. -/
def pyCrc32 (data : List Nat) : Nat :=
  data.foldl (crc32Step 0x82F63B78) 0xFFFFFFFF ^^^ 0xFFFFFFFF

/-- Value of a Python float (an IEEE-754 binary64 number).  Every finite
double is an exact rational; negative zero, infinities and NaN get their
own constructors since they render and pack differently. -/
inductive FVal where
  | fin (q : ℚ)
  | negZero
  | inf (neg : Bool)
  | nan
  deriving DecidableEq

/-- Round a non-negative rational to the nearest integer, ties to even
(the IEEE-754 default rounding used by struct.pack and float()). -/
def rtneQ (q : ℚ) : Int :=
  let fl := ⌊q⌋
  let fr := q - (fl : ℚ)
  if fr < 1 / 2 then fl
  else if 1 / 2 < fr then fl + 1
  else if fl % 2 = 0 then fl else fl + 1

/-- Round a positive rational to the nearest representable magnitude of a
binary floating-point format with the given precision and exponent range;
none means overflow to infinity. -/
def roundFloatMag (prec : Nat) (emin emax : Int) (q : ℚ) : Option ℚ :=
  let e := max (Int.log 2 q) emin
  let lsb : Int := e - (prec - 1 : Nat)
  let m := rtneQ (q * (2 : ℚ) ^ (-lsb))
  let v := (m : ℚ) * (2 : ℚ) ^ lsb
  if (2 : ℚ) ^ (emax + 1) ≤ v then none else some v

/-- Build the FVal for a signed rational after binary64 rounding, as
Python float() produces from an exact decimal literal value. -/
def fvalOfRat (neg : Bool) (mag : ℚ) : FVal :=
  if mag = 0 then (if neg then FVal.negZero else FVal.fin 0)
  else
    match roundFloatMag 53 (-1022) 1023 mag with
    | none => FVal.inf neg
    | some v =>
      if v = 0 then (if neg then FVal.negZero else FVal.fin 0)
      else FVal.fin (if neg then -v else v)

/-- struct.unpack of a 4-byte little-endian IEEE-754 single given as its
32-bit word: the resulting Python float value, exactly. -/
def decodeF32 (word : Nat) : FVal :=
  let sign : Bool := word / 2 ^ 31 % 2 = 1
  let e : Nat := word / 2 ^ 23 % 256
  let m : Nat := word % 2 ^ 23
  if e = 255 then
    if m = 0 then FVal.inf sign else FVal.nan
  else if e = 0 then
    if m = 0 then (if sign then FVal.negZero else FVal.fin 0)
    else FVal.fin ((if sign then (-1 : ℚ) else 1) * m * (2 : ℚ) ^ (-(149 : Int)))
  else
    FVal.fin ((if sign then (-1 : ℚ) else 1) * (2 ^ 23 + m) * (2 : ℚ) ^ ((e : Int) - 150))

/-- struct.pack of a Python float to 4 little-endian bytes of an IEEE-754
single, rounding to nearest (ties to even); OverflowError when the finite
value does not fit. -/
def encodeF32 : FVal → Except Err (List Nat)
  | FVal.nan => Except.ok [0, 0, 192, 127]
  | FVal.inf neg => Except.ok (if neg then [0, 0, 128, 255] else [0, 0, 128, 127])
  | FVal.negZero => Except.ok [0, 0, 0, 128]
  | FVal.fin q =>
    if q = 0 then Except.ok [0, 0, 0, 0]
    else
      let neg := q < 0
      match roundFloatMag 24 (-126) 127 |q| with
      | none => Except.error Err.overflowError
      | some v =>
        if v = 0 then Except.ok (if neg then [0, 0, 0, 128] else [0, 0, 0, 0])
        else
          let e := max (Int.log 2 v) (-126)
          let m := (v * (2 : ℚ) ^ (23 - e)).num.toNat
          let word :=
            (if neg then 2 ^ 31 else 0) +
              (if m < 2 ^ 23 then m else (e + 127).toNat * 2 ^ 23 + (m - 2 ^ 23))
          Except.ok (leBytes 4 word)

/-- Drop trailing zero digit characters. -/
def stripZeros (l : List Nat) : List Nat :=
  (l.reverse.dropWhile (· = 48)).reverse

/-- Python percent-g formatting of a positive rational: six significant
decimal digits, correctly rounded, fixed or scientific notation by the
decimal exponent, trailing zeros stripped. -/
def g6 (q : ℚ) : List Nat :=
  let k0 := Int.log 10 q
  let d0 := (rtneQ (q * (10 : ℚ) ^ ((5 : Int) - k0))).toNat
  let dk := if d0 = 1000000 then (100000, k0 + 1) else (d0, k0)
  let ds := natDigitsBE dk.1
  if -4 ≤ dk.2 ∧ dk.2 < 6 then
    if 0 ≤ dk.2 then
      let ip := ds.take (dk.2.toNat + 1)
      let fp := stripZeros (ds.drop (dk.2.toNat + 1))
      ip ++ (if fp = [] then [] else 46 :: fp)
    else
      let fp := stripZeros ds
      [48, 46] ++ List.replicate (-(dk.2 + 1)).toNat 48 ++ fp
  else
    let fp := stripZeros (ds.drop 1)
    let mant := ds.take 1 ++ (if fp = [] then [] else 46 :: fp)
    let es := natToDec dk.2.natAbs
    mant ++ [101, if dk.2 < 0 then 45 else 43] ++ (if es.length < 2 then 48 :: es else es)

/-- FloatData.to_text: an f-string with the :g format. -/
def formatG : FVal → List Nat
  | FVal.nan => [110, 97, 110]
  | FVal.inf neg => if neg then [45, 105, 110, 102] else [105, 110, 102]
  | FVal.negZero => [45, 48]
  | FVal.fin q =>
    if q = 0 then [48]
    else (if q < 0 then [45] else []) ++ g6 |q|

/-- ASCII lower-casing, for the case-insensitive inf and nan spellings
accepted by float(). -/
def asciiLower (c : Nat) : Nat :=
  if 65 ≤ c ∧ c ≤ 90 then c + 32 else c

/-- Digit-group value together with the count of digits consumed
(underscores not counted), for fraction scaling in float literals. -/
def digitsValCntGo (acc cnt : Nat) : List Nat → Option (Nat × Nat)
  | [] => some (acc, cnt)
  | c :: rest =>
    if c = 95 then
      match rest with
      | [] => none
      | c2 :: rest2 =>
        match decDigitVal c2 with
        | some d => digitsValCntGo (acc * 10 + d) (cnt + 1) rest2
        | none => none
    else
      match decDigitVal c with
      | some d => digitsValCntGo (acc * 10 + d) (cnt + 1) rest
      | none => none

/-- Decimal digit group with count; empty input counts as zero digits. -/
def digitsValCnt : List Nat → Option (Nat × Nat)
  | [] => some (0, 0)
  | c :: rest =>
    match decDigitVal c with
    | some d => digitsValCntGo d 1 rest
    | none => none

/-- Python float(s): strip, optional sign, then inf or infinity or nan in
any case, or a decimal literal with optional fraction and exponent; the
exact literal value is rounded to binary64. -/
def pyFloat (s : List Nat) : Option FVal :=
  let t := pyStrip s
  let signed : Bool × List Nat :=
    match t with
    | 43 :: rest => (false, rest)
    | 45 :: rest => (true, rest)
    | rest => (false, rest)
  let neg := signed.1
  let r := signed.2
  let rl := r.map asciiLower
  if rl = [105, 110, 102] ∨ rl = [105, 110, 102, 105, 110, 105, 116, 121] then
    some (FVal.inf neg)
  else if rl = [110, 97, 110] then some FVal.nan
  else
    let me : List Nat × Option (List Nat) :=
      match splitFirst 101 rl with
      | some p => (p.1, some p.2)
      | none => (rl, none)
    let ifr : List Nat × Option (List Nat) :=
      match splitFirst 46 me.1 with
      | some p => (p.1, some p.2)
      | none => (me.1, none)
    match digitsValCnt ifr.1, digitsValCnt (ifr.2.getD []) with
    | some ic, some fc =>
      if ic.2 = 0 ∧ fc.2 = 0 then none
      else
        let mant : ℚ := (ic.1 : ℚ) + (fc.1 : ℚ) / (10 : ℚ) ^ fc.2
        match me.2 with
        | none => some (fvalOfRat neg mant)
        | some etext =>
          let esigned : Bool × List Nat :=
            match etext with
            | 43 :: rest => (false, rest)
            | 45 :: rest => (true, rest)
            | rest => (false, rest)
          match digitsVal decDigitVal 10 esigned.2 with
          | some ev =>
            let ex : Int := if esigned.1 then -(ev : Int) else (ev : Int)
            some (fvalOfRat neg (mant * (10 : ℚ) ^ ex))
          | none => none
    | _, _ => none

/-- Value of an octal digit character. -/
def octDigitVal (c : Nat) : Option Nat :=
  if 48 ≤ c ∧ c ≤ 55 then some (c - 48) else none

/-- Consume the two hex digits of a backslash-x escape, giving the code
point and the remaining characters; none is the ValueError for a
malformed hex escape. -/
def hexTake : List Nat → Option (Nat × List Nat)
  | h1 :: h2 :: r3 =>
    match hexDigitVal h1, hexDigitVal h2 with
    | some a, some b => some (16 * a + b, r3)
    | _, _ => none
  | _ => none

def hexTake_len (l : List Nat) (v : Nat) (r : List Nat)
    (h : hexTake l = some (v, r)) : r.length ≤ l.length := by
  match l with
  | [] => simp [hexTake] at h
  | [a] => simp [hexTake] at h
  | h1 :: h2 :: r3 =>
    simp only [hexTake] at h
    cases hv1 : hexDigitVal h1 <;> cases hv2 : hexDigitVal h2 <;>
      simp [hv1, hv2] at h
    obtain ⟨-, h2⟩ := h
    subst h2
    simp
    omega

/-- Consume up to two further octal digits of an octal escape whose first
digit has the given value, as CPython does. -/
def octTake (o1 : Nat) : List Nat → Nat × List Nat
  | [] => (o1, [])
  | d2 :: r3 =>
    match octDigitVal d2 with
    | none => (o1, d2 :: r3)
    | some o2 =>
      match r3 with
      | [] => (o1 * 8 + o2, [])
      | d3 :: r4 =>
        match octDigitVal d3 with
        | none => (o1 * 8 + o2, d3 :: r4)
        | some o3 => (o1 * 64 + o2 * 8 + o3, r4)

def octTake_len (o1 : Nat) (l : List Nat) : (octTake o1 l).2.length ≤ l.length := by
  match l with
  | [] => simp [octTake]
  | d2 :: r3 =>
    simp only [octTake]
    cases octDigitVal d2 <;> simp
    match r3 with
    | [] => simp [octTake]
    | d3 :: r4 =>
      simp only []
      cases octDigitVal d3 <;> simp <;> omega

/-- Escape-sequence decoding of the body of a Python string literal, as
ast.literal_eval performs: backslash-newline removed, the named single
character escapes, two-digit hex escapes, one- to three-digit octal
escapes, and unknown escapes kept verbatim; a trailing backslash (which
would escape the closing quote) is a syntax error modelled as none. -/
def evalInner : List Nat → Option (List Nat)
  | [] => some []
  | e :: rest =>
    if e = 92 then
      match rest with
      | [] => none
      | c :: r2 =>
        if c = 10 then evalInner r2
        else if c = 92 then (evalInner r2).map (92 :: ·)
        else if c = 39 then (evalInner r2).map (39 :: ·)
        else if c = 34 then (evalInner r2).map (34 :: ·)
        else if c = 97 then (evalInner r2).map (7 :: ·)
        else if c = 98 then (evalInner r2).map (8 :: ·)
        else if c = 102 then (evalInner r2).map (12 :: ·)
        else if c = 110 then (evalInner r2).map (10 :: ·)
        else if c = 114 then (evalInner r2).map (13 :: ·)
        else if c = 116 then (evalInner r2).map (9 :: ·)
        else if c = 118 then (evalInner r2).map (11 :: ·)
        else if c = 120 then
          match h : hexTake r2 with
          | some vr =>
            have hlen : vr.2.length ≤ r2.length := hexTake_len r2 vr.1 vr.2 h
            (evalInner vr.2).map (vr.1 :: ·)
          | none => none
        else
          match octDigitVal c with
          | some o1 =>
            have hlen : (octTake o1 r2).2.length ≤ r2.length := octTake_len o1 r2
            (evalInner (octTake o1 r2).2).map ((octTake o1 r2).1 :: ·)
          | none => (evalInner r2).map (fun l => 92 :: c :: l)
    else (evalInner rest).map (e :: ·)
termination_by l => l.length
decreasing_by
  all_goals simp_wf
  all_goals omega

/-- ast.literal_eval of a quote-delimited string fragment as produced by
the StringParser regex: the fragment starts and ends with the same quote
character, which does not occur inside; the body is escape-decoded. -/
def evalPyStrLit : List Nat → Option (List Nat)
  | q :: rest =>
    if (q = 39 ∨ q = 34) ∧ rest.getLast? = some q then evalInner rest.dropLast
    else none
  | [] => none

/-- UTF-8 encoding of one code point, as str.encode produces. -/
def encodeUtf8Char (cp : Nat) : List Nat :=
  if cp < 128 then [cp]
  else if cp < 2048 then [192 + cp / 64, 128 + cp % 64]
  else if cp < 65536 then [224 + cp / 4096, 128 + cp / 64 % 64, 128 + cp % 64]
  else [240 + cp / 262144, 128 + cp / 4096 % 64, 128 + cp / 64 % 64, 128 + cp % 64]

/-- UTF-8 encoding of a code-point sequence. -/
def encodeUtf8 (l : List Nat) : List Nat :=
  (l.map encodeUtf8Char).flatten

/-- Quote character chosen by Python repr of a string: single quote,
unless the text contains a single quote and no double quote. -/
def reprQuote (bs : List Nat) : Nat :=
  if 39 ∈ bs ∧ ¬(34 ∈ bs) then 34 else 39

/-- Escaping of one ASCII character inside Python repr with the given
quote: the quote itself and backslash get a backslash, newline, carriage
return and tab use their named escapes, other printable characters stand
for themselves, and the rest become two-digit lower-case hex escapes. -/
def escAscii (q c : Nat) : List Nat :=
  if c = q ∨ c = 92 then [92, c]
  else if c = 10 then [92, 110]
  else if c = 13 then [92, 114]
  else if c = 9 then [92, 116]
  else if 32 ≤ c ∧ c < 127 then [c]
  else [92, 120, hexDigitChar (c / 16 % 16), hexDigitChar (c % 16)]

/-- Python repr of an ASCII string given as its character codes, as
StringData.to_text produces via repr(value.decode). -/
def pyReprAscii (bs : List Nat) : List Nat :=
  let q := reprQuote bs
  q :: (bs.map (escAscii q)).flatten ++ [q]

/-- The StringParser from_text regex: a single- or double-quoted fragment
without an inner quote of the same kind (group 1, quotes included), then
everything up to the end of the line (group 2; the dot does not match a
newline, so any text after a newline is dropped). -/
def quoteMatch (text : List Nat) : Option (List Nat × List Nat) :=
  match text with
  | [] => none
  | c :: rest =>
    if c = 39 ∨ c = 34 then
      (splitFirst c rest).map (fun p => (c :: p.1 ++ [c], p.2.takeWhile (· ≠ 10)))
    else none

/-- Parsed pieces of a SPACE message, mirroring the SpaceData subclasses
of space.py: EmptyData, IntegerData, ByteData, FloatData, StringData,
ListData, and MessageData (a ListData carrying a deadline in seconds). -/
inductive Data where
  | emptyD (label : List Nat)
  | intD (value : Int) (bits : Nat) (signed : Bool)
  | byteD (value : Nat) (label : Option (List Nat))
  | floatD (value : FVal) (units : Option (List Nat))
  | strD (value : List Nat)
  | listD (fields : List Data) (sep : Nat)
  | msgD (fields : List Data) (sep : Nat) (deadline : Option ℚ)

/-- SPACE_PING, the reserved text of the empty message. -/
def pingLabel : List Nat := [112, 105, 110, 103]

/-- MINIMUM_DEADLINE, the 2 millisecond default command deadline. -/
def MINIMUM_DEADLINE : ℚ := 2 / 1000

/-- IntegerData construction: range check against the width and
signedness, ParameterInvalid outside. -/
def intMinOf (bits : Nat) (signed : Bool) : Int :=
  if signed then -(2 ^ (bits - 1) : Nat) else 0

/-- Largest value accepted by IntegerData for the width and signedness. -/
def intMaxOf (bits : Nat) (signed : Bool) : Int :=
  if signed then (2 ^ (bits - 1) : Nat) - 1 else (2 ^ bits : Nat) - 1

/-- IntegerData.__init__: accept the value or raise ParameterInvalid. -/
def mkIntegerData (v : Int) (bits : Nat) (signed : Bool) : Except Err Data :=
  if intMinOf bits signed ≤ v ∧ v ≤ intMaxOf bits signed then
    Except.ok (Data.intD v bits signed)
  else Except.error Err.parameterInvalid

/-- struct.pack of an integer: struct_format asserts the width, pack
raises struct.error when the value is out of range, and the bytes are
little-endian two's complement. -/
def packInt (v : Int) (bits : Nat) (signed : Bool) : Except Err (List Nat) :=
  if ¬(bits = 8 ∨ bits = 16 ∨ bits = 32 ∨ bits = 64) then Except.error Err.assertError
  else if intMinOf bits signed ≤ v ∧ v ≤ intMaxOf bits signed then
    Except.ok (leBytes (bits / 8) (v % (2 ^ bits : Nat)).toNat)
  else Except.error Err.structError

/-- The SpaceParser subclasses of space.py: IntegerParser (ByteParser is
IntegerParser with 8 unsigned bits), FloatParser, StringParser,
IdentifierParser with its two lookup tables, ListParser, PairParser, and
MessageParser (a PairParser with deadlines and the ping special case).
Separators are single characters in every catalog instance and are
modelled as single character codes. -/
inductive Parser where
  | intP (bits : Nat) (signed : Bool) (sep : Nat)
  | floatP (units : Option (List Nat)) (sep : Nat)
  | strP (sep : Nat)
  | identP (codeToLabel : List (Nat × List Nat)) (labelToCode : List (List Nat × Nat))
  | listP (inner : Parser) (maxLength : Option Nat) (sep : Nat)
  | pairP (first : Parser) (dflt : Option Parser) (seconds : List (Nat × Option Parser)) (sep : Nat)
  | msgP (first : Parser) (dflt : Option Parser) (seconds : List (Nat × Option Parser))
      (deadlines : List (Nat × Option ℚ)) (sep : Nat)

/-- The .value attribute of a parsed piece when used as a dict key, for
the PairParser second-parser dispatch and the MessageParser deadline
lookup; pieces without an integer value miss every key. -/
def dataKey : Data → Option Nat
  | Data.byteD v _ => some v
  | Data.intD v _ _ => if 0 ≤ v then some v.toNat else none
  | _ => none

/-- PairParser second-parser choice: the registered entry for the
discriminant's code when present (possibly itself None), otherwise the
default parser, as dict.get with a default. -/
def secondChoice (dflt : Option Parser) (seconds : List (Nat × Option Parser))
    (first : Data) : Option Parser :=
  match dataKey first with
  | some k => (alookup seconds k).getD dflt
  | none => dflt

/-- IntegerParser.from_binary: take the rounded-up byte width (unpack
raises struct.error when fewer bytes are available), decode little-endian
two's complement, and build the IntegerData. -/
def intFromBinary (bits : Nat) (signed : Bool) (binary : List Nat) :
    Except Err (Data × List Nat) :=
  if ¬(bits = 8 ∨ bits = 16 ∨ bits = 32 ∨ bits = 64) then Except.error Err.assertError
  else
    let length := (bits + 7) / 8
    if binary.length < length then Except.error Err.structError
    else
      let u := leVal (binary.take length)
      let v : Int := if signed ∧ (2 ^ (bits - 1) : Nat) ≤ u then (u : Int) - (2 ^ bits : Nat) else (u : Int)
      (mkIntegerData v bits signed).map (fun d => (d, binary.drop length))

/-- IntegerParser.from_text: split at the separator, accept decimal or
0x/0X hexadecimal (hex wrapped into two's complement under signed), raise
ParseError for a non-number and let IntegerData range-check the value. -/
def intFromText (bits : Nat) (signed : Bool) (sep : Nat) (text : List Nat) :
    Except Err (Data × List Nat) :=
  let s := sepSplit sep text
  let hexPre : Bool := s.1.take 2 = [48, 120] ∨ s.1.take 2 = [48, 88]
  let parsed : Option Int :=
    if hexPre then
      (pyIntHex (s.1.drop 2)).map
        (fun u : Int =>
          if signed ∧ ((2 ^ (bits - 1) : Nat) : Int) ≤ u then u - ((2 ^ bits : Nat) : Int) else u)
    else pyInt s.1
  match parsed with
  | none => Except.error Err.parseError
  | some v => (mkIntegerData v bits signed).map (fun d => (d, s.2))

/-- FloatParser.from_binary: unpack four little-endian bytes as an
IEEE-754 single (struct.error when fewer are available). -/
def floatFromBinary (units : Option (List Nat)) (binary : List Nat) :
    Except Err (Data × List Nat) :=
  if binary.length < 4 then Except.error Err.structError
  else Except.ok (Data.floatD (decodeF32 (leVal (binary.take 4))) units, binary.drop 4)

/-- FloatParser.from_text: split at the separator and parse with float(),
ParseError when it is not a float literal. -/
def floatFromText (units : Option (List Nat)) (sep : Nat) (text : List Nat) :
    Except Err (Data × List Nat) :=
  let s := sepSplit sep text
  match pyFloat s.1 with
  | none => Except.error Err.parseError
  | some f => Except.ok (Data.floatD f units, s.2)

/-- StringParser.from_binary: split at the first null byte, ParseError
when there is none. -/
def strFromBinary (binary : List Nat) : Except Err (Data × List Nat) :=
  match splitFirst 0 binary with
  | none => Except.error Err.parseError
  | some p => Except.ok (Data.strD p.1, p.2)

/-- StringParser.from_text: match the quoted-fragment regex, decode the
literal with ast.literal_eval (any failure becomes ParseError), then
consume a leading separator from the remainder or reject trailing text. -/
def strFromText (sep : Nat) (text : List Nat) : Except Err (Data × List Nat) :=
  match quoteMatch text with
  | none => Except.error Err.parseError
  | some (frag, rest0) =>
    match evalPyStrLit frag with
    | none => Except.error Err.parseError
    | some cps =>
      let encoded := encodeUtf8 cps
      match rest0 with
      | [] => Except.ok (Data.strD encoded, [])
      | c :: tailrest =>
        if c = sep then Except.ok (Data.strD encoded, tailrest)
        else Except.error Err.parseError

/-- IdentifierParser.from_binary: read one byte (IndexError on empty),
look it up (IdentifierUnknown when unregistered) and attach the canonical
label. -/
def identFromBinary (ctl : List (Nat × List Nat)) (binary : List Nat) :
    Except Err (Data × List Nat) :=
  match binary with
  | [] => Except.error Err.indexError
  | code :: rest =>
    match alookup ctl code with
    | none => Except.error Err.identifierUnknown
    | some label => Except.ok (Data.byteD code (some label), rest)

/-- IdentifierParser.from_text: split at the space separator, look the
label or alias up (IdentifierUnknown when unregistered), and rewrite to
the canonical label. -/
def identFromText (ctl : List (Nat × List Nat)) (ltc : List (List Nat × Nat))
    (text : List Nat) : Except Err (Data × List Nat) :=
  let s := sepSplit 32 text
  match alookup ltc s.1 with
  | none => Except.error Err.identifierUnknown
  | some code =>
    match alookup ctl code with
    | none => Except.error Err.keyError
    | some canonical => Except.ok (Data.byteD code (some canonical), s.2)

/-- MessageParser deadline wrap: look the deadline up by the first
field's code (KeyError as for a Python dict) and rebuild as MessageData. -/
def msgWrap (deadlines : List (Nat × Option ℚ)) (sep : Nat) (fields : List Data)
    (rest : List Nat) : Except Err (Data × List Nat) :=
  match fields.head? with
  | none => Except.error Err.indexError
  | some f0 =>
    match dataKey f0 with
    | none => Except.error Err.keyError
    | some k =>
      match alookup deadlines k with
      | none => Except.error Err.keyError
      | some dl => Except.ok (Data.msgD fields sep dl, rest)

mutual

/-- SpaceParser.from_binary dispatch over the parser kinds.  The fuel
argument bounds loop iterations and recursion depth; ListParser's while
loop can run forever in Python when the inner parser consumes nothing,
which surfaces as Err.fuelOut here. -/
def fromBinary : Nat → Parser → List Nat → Except Err (Data × List Nat)
  | 0, _, _ => Except.error Err.fuelOut
  | fuel + 1, p, binary =>
    match p with
    | Parser.intP bits signed _ => intFromBinary bits signed binary
    | Parser.floatP units _ => floatFromBinary units binary
    | Parser.strP _ => strFromBinary binary
    | Parser.identP ctl _ => identFromBinary ctl binary
    | Parser.listP inner maxLen sep => do
      let r ← fromBinaryList fuel inner maxLen binary
      Except.ok (Data.listD r.1 sep, r.2)
    | Parser.pairP first dflt seconds sep => do
      let fr ← fromBinary fuel first binary
      match secondChoice dflt seconds fr.1 with
      | none =>
        if fr.2 = [] then Except.ok (Data.listD [fr.1] sep, fr.2)
        else Except.error Err.identifierUnknown
      | some p2 => do
        let sr ← fromBinary fuel p2 fr.2
        Except.ok (Data.listD [fr.1, sr.1] sep, sr.2)
    | Parser.msgP first dflt seconds deadlines sep =>
      if binary = [] then
        Except.ok (Data.msgD [Data.emptyD pingLabel] 32 (some MINIMUM_DEADLINE), [])
      else do
        let fr ← fromBinary fuel first binary
        match secondChoice dflt seconds fr.1 with
        | none =>
          if fr.2 = [] then msgWrap deadlines sep [fr.1] []
          else Except.error Err.identifierUnknown
        | some p2 => do
          let sr ← fromBinary fuel p2 fr.2
          msgWrap deadlines sep [fr.1, sr.1] sr.2

/-- ListParser.from_binary loop: run the inner parser while input remains
and the optional maximum count is not reached. -/
def fromBinaryList : Nat → Parser → Option Nat → List Nat →
    Except Err (List Data × List Nat)
  | 0, _, _, _ => Except.error Err.fuelOut
  | fuel + 1, inner, maxLen, binary =>
    if binary = [] ∨ maxLen = some 0 then Except.ok ([], binary)
    else do
      let r ← fromBinary fuel inner binary
      let rs ← fromBinaryList fuel inner (maxLen.map (fun n => n - 1)) r.2
      Except.ok (r.1 :: rs.1, rs.2)

end

mutual

/-- SpaceParser.from_text dispatch over the parser kinds, with the same
fuel discipline as fromBinary. -/
def fromText : Nat → Parser → List Nat → Except Err (Data × List Nat)
  | 0, _, _ => Except.error Err.fuelOut
  | fuel + 1, p, text =>
    match p with
    | Parser.intP bits signed sep => intFromText bits signed sep text
    | Parser.floatP units sep => floatFromText units sep text
    | Parser.strP sep => strFromText sep text
    | Parser.identP ctl ltc => identFromText ctl ltc text
    | Parser.listP inner maxLen sep => do
      let r ← fromTextList fuel inner maxLen text
      Except.ok (Data.listD r.1 sep, r.2)
    | Parser.pairP first dflt seconds sep =>
      let s := sepSplit sep text
      (do
        let fr ← fromText fuel first s.1
        if fr.2 ≠ [] then Except.error Err.parseError
        else
          match secondChoice dflt seconds fr.1 with
          | none =>
            if s.2 = [] then Except.ok (Data.listD [fr.1] sep, s.2)
            else Except.error Err.identifierUnknown
          | some p2 => do
            let sr ← fromText fuel p2 s.2
            Except.ok (Data.listD [fr.1, sr.1] sep, sr.2))
    | Parser.msgP first dflt seconds deadlines sep =>
      if text = pingLabel then
        Except.ok (Data.msgD [Data.emptyD pingLabel] 32 (some MINIMUM_DEADLINE), [])
      else
        let s := sepSplit sep text
        (do
          let fr ← fromText fuel first s.1
          if fr.2 ≠ [] then Except.error Err.parseError
          else
            match secondChoice dflt seconds fr.1 with
            | none =>
              if s.2 = [] then msgWrap deadlines sep [fr.1] s.2
              else Except.error Err.identifierUnknown
            | some p2 => do
              let sr ← fromText fuel p2 s.2
              msgWrap deadlines sep [fr.1, sr.1] sr.2)

/-- ListParser.from_text loop: run the inner parser while text remains
and the optional maximum count is not reached. -/
def fromTextList : Nat → Parser → Option Nat → List Nat →
    Except Err (List Data × List Nat)
  | 0, _, _, _ => Except.error Err.fuelOut
  | fuel + 1, inner, maxLen, text =>
    if text = [] ∨ maxLen = some 0 then Except.ok ([], text)
    else do
      let r ← fromText fuel inner text
      let rs ← fromTextList fuel inner (maxLen.map (fun n => n - 1)) r.2
      Except.ok (r.1 :: rs.1, rs.2)

end

mutual

/-- SpaceData.to_binary dispatch: integers pack little-endian, bytes are
8-bit unsigned, floats pack as IEEE-754 singles, strings append the null
terminator, lists and messages concatenate their fields. -/
def toBinary : Data → Except Err (List Nat)
  | Data.emptyD _ => Except.ok []
  | Data.intD v bits signed => packInt v bits signed
  | Data.byteD v _ => packInt (v : Int) 8 false
  | Data.floatD f _ => encodeF32 f
  | Data.strD v => Except.ok (v ++ [0])
  | Data.listD fields _ => toBinaryList fields
  | Data.msgD fields _ _ => toBinaryList fields

/-- Concatenated binary of a field list. -/
def toBinaryList : List Data → Except Err (List Nat)
  | [] => Except.ok []
  | d :: rest => do
    let b ← toBinary d
    let bs ← toBinaryList rest
    Except.ok (b ++ bs)

end

mutual

/-- SpaceData.to_text dispatch: integers render decimal, bytes render
their label when present, floats use the percent-g form, strings use
repr of the decoded text (modelled for ASCII only; no claim below
touches a non-ASCII rendering), lists and messages join with their
separator. -/
def toText : Data → Except Err (List Nat)
  | Data.emptyD label => Except.ok label
  | Data.intD v _ _ => Except.ok (intToDec v)
  | Data.byteD v lbl =>
    Except.ok (match lbl with | some l => l | none => natToDec v)
  | Data.floatD f _ => Except.ok (formatG f)
  | Data.strD v =>
    if v.all (· < 128) then Except.ok (pyReprAscii v)
    else Except.error Err.unicodeUnmodelled
  | Data.listD fields sep => toTextJoin sep fields
  | Data.msgD fields sep _ => toTextJoin sep fields

/-- Separator join of rendered fields, as str.join. -/
def toTextJoin (sep : Nat) : List Data → Except Err (List Nat)
  | [] => Except.ok []
  | [d] => toText d
  | d :: rest => do
    let t ← toText d
    let ts ← toTextJoin sep rest
    Except.ok (t ++ sep :: ts)

end

/-- SpaceProtocol.SYNC_SEQUENCE. -/
def SYNC_SEQUENCE : List Nat := [0x1A, 0xCE]

/-- SpaceProtocol.MAX_MESSAGE_SIZE. -/
def MAX_MESSAGE_SIZE : Nat := 127

/-- SpaceProtocol._to_packet: sync, command byte with address, length,
body, and the little-endian CRC over everything after the sync bytes;
ParseError when the body exceeds 127 bytes. -/
def toPacket (address : Nat) (message : Data) : Except Err (List Nat) := do
  let mb ← toBinary message
  if MAX_MESSAGE_SIZE < mb.length then Except.error Err.parseError
  else
    let core := (0xA0 ||| address) :: mb.length :: mb
    Except.ok (SYNC_SEQUENCE ++ core ++ leBytes 2 (crc16 core))

/-- SpaceProtocol._from_packet: ok none models the (None, None) return
for an incomplete or invalid packet; parser exceptions and the rest
assertion propagate as errors, exactly as in the source. -/
def fromPacket (fuel : Nat) (parser : Parser) (address : Nat) (packet : List Nat) :
    Except Err (Option (Data × Nat)) :=
  if packet.length < 7 ∨ packet.take 2 ≠ SYNC_SEQUENCE ∨
      packet.getD 2 0 ≠ (0xB0 ||| address) then
    Except.ok none
  else
    let length := packet.getD 4 0
    if MAX_MESSAGE_SIZE < length ∨ packet.length ≠ length + 7 then Except.ok none
    else if leBytes 2 (crc16 ((packet.drop 2).take (3 + length))) ≠
        (packet.drop (5 + length)).take 2 then
      Except.ok none
    else do
      let r ← fromBinary fuel parser ((packet.drop 5).take length)
      if r.2 = [] then Except.ok (some (r.1, packet.getD 3 0))
      else Except.error Err.assertError

/-- The reply-wait loop of SpaceProtocol.send_message: each list entry is
one serial read (none when no byte arrived in that poll); bytes
accumulate and decoding is retried after each byte; on success the status
byte is stored, and when the reads are exhausted (the deadline expired)
None is returned with the stored status untouched. -/
def sendLoop (fuel : Nat) (parser : Parser) (address : Nat) :
    List (Option Nat) → List Nat → Option Nat → Except Err (Option Data × Option Nat)
  | [], _, status => Except.ok (none, status)
  | none :: rest, buf, status => sendLoop fuel parser address rest buf status
  | some b :: rest, buf, status =>
    let buf2 := buf ++ [b]
    match fromPacket fuel parser address buf2 with
    | Except.error e => Except.error e
    | Except.ok none => sendLoop fuel parser address rest buf2 status
    | Except.ok (some r) => Except.ok (some r.1, some r.2)

/-- Bytes of the text "pause ". -/
def pauseTokSp : List Nat := [112, 97, 117, 115, 101, 32]

/-- Bytes of the text "flash ". -/
def flashTokSp : List Nat := [102, 108, 97, 115, 104, 32]

/-- Bytes of the text "flashboot ". -/
def flashbootTokSp : List Nat := [102, 108, 97, 115, 104, 98, 111, 111, 116, 32]

/-- Bytes of the text "cload ". -/
def cloadTokSp : List Nat := [99, 108, 111, 97, 100, 32]

/-- Bytes of the text "csave ". -/
def csaveTokSp : List Nat := [99, 115, 97, 118, 101, 32]

/-- The branch taken by LoggingSpaceProtocol.run_line for a line, with
the data the branch works on. -/
inductive LineAction where
  | ignored
  | macAct (body : List Nat)
  | pauseAct (arg : List Nat)
  | flashAct (path : List Nat)
  | flashbootAct (path : List Nat)
  | cloadAct (path : List Nat)
  | csaveAct (path : List Nat)
  | wireAct (line : List Nat)
  deriving DecidableEq

/-- The rules run_line applies after the comment check and the optional
greater-than strip: macro table lookup first, then the pause, flash,
flashboot, cload and csave keywords, otherwise dispatch the line as a
wire command. -/
def classifyTail (macros : List (List Nat × List Nat)) (line : List Nat) : LineAction :=
  match alookup macros line with
  | some body => LineAction.macAct body
  | none =>
    if pauseTokSp.isPrefixOf line then LineAction.pauseAct (line.drop 6)
    else if flashTokSp.isPrefixOf line then LineAction.flashAct (line.drop 6)
    else if flashbootTokSp.isPrefixOf line then LineAction.flashbootAct (line.drop 10)
    else if cloadTokSp.isPrefixOf line then LineAction.cloadAct (line.drop 6)
    else if csaveTokSp.isPrefixOf line then LineAction.csaveAct (line.drop 6)
    else LineAction.wireAct line

/-- LoggingSpaceProtocol.run_line line classification: strip the line;
a blank line or one starting with a hash or less-than sign is ignored; a
leading greater-than sign is stripped off (with surrounding whitespace)
and the remainder then goes through the macro/keyword/wire rules — not
through the comment rules again. -/
def runLineAction (macros : List (List Nat × List Nat)) (raw : List Nat) : LineAction :=
  let line := pyStrip raw
  if line = [] ∨ line.head? = some 35 ∨ line.head? = some 60 then LineAction.ignored
  else
    classifyTail macros (if line.head? = some 62 then pyStrip line.tail else line)

/-- Wire traffic emitted by the flashing macro: syspoke writes and the
final sysreset. -/
inductive WireCmd where
  | syspokeW (addr : Nat) (piece : List Nat)
  | sysresetW
  deriving DecidableEq

/-- The 64-byte pieces flash_binary writes, with their increasing
addresses. -/
def chunks64 (addr : Nat) : List Nat → List WireCmd
  | [] => []
  | c :: rest =>
    WireCmd.syspokeW addr ((c :: rest).take 64) :: chunks64 (addr + 64) ((c :: rest).drop 64)
termination_by l => l.length
decreasing_by simp <;> omega

/-- The flash branch of run_line after the file is read: validate the
application image size, its embedded length at offset 32 and its trailing
CRC-32 before any command is sent, then hand the data to flash_binary
(modelled by its syspoke piece list) and reset.  SpaceError models the
raises; an error return means nothing was sent, since the raise precedes
the flash_binary call in the source. -/
def flashAppCmds (data : List Nat) : Except Err (List WireCmd) :=
  if data.length < 64 * 1024 ∨ (256 - 32) * 1024 ≤ data.length then Except.error Err.spaceError
  else
    let length := leVal ((data.drop 32).take 4)
    let crc := leVal (data.drop (data.length - 4))
    if length ≠ data.length - 4 ∨ crc ≠ pyCrc32 (data.take (data.length - 4)) then
      Except.error Err.spaceError
    else Except.ok (chunks64 0x80008000 data ++ [WireCmd.sysresetW])

/-- The flashboot branch of run_line after the file is read: validate the
bootloader image size before any command is sent, then flash from the
start of FRAM and reset. -/
def flashBootCmds (data : List Nat) : Except Err (List WireCmd) :=
  if data.length < 8 * 1024 ∨ 32 * 1024 ≤ data.length then Except.error Err.spaceError
  else Except.ok (chunks64 0x80000000 data ++ [WireCmd.sysresetW])

/-- Bytes of the text ": ". -/
def colonSpTok : List Nat := [58, 32]

/-- Bytes of the text " (". -/
def spParenTok : List Nat := [32, 40]

/-- Bytes of the text " -> ". -/
def arrowTok : List Nat := [32, 45, 62, 32]

/-- All prefix-suffix splits of a list, shortest prefix first; scanning
them in order models a lazy regex group. -/
def splitsList : List Nat → List (List Nat × List Nat)
  | [] => [([], [])]
  | c :: rest => ([], c :: rest) :: (splitsList rest).map (fun p => (c :: p.1, p.2))

/-- The tail of the config-line regex after group 3: an optional greedy
" -> (group4)" then a closing parenthesis at the end of the line, the
optional group preferred. -/
def matchTailOpt (t : List Nat) : Option (Option (List Nat)) :=
  if t.take 4 = arrowTok ∧ t.getLast? = some 41 then some (some ((t.drop 4).dropLast))
  else if t = [41] then some none
  else none

/-- The load_config line regex with lazy groups: shortest group 1 before
": ", then shortest group 2 before " (", then shortest group 3 before the
optional arrow part and the final closing parenthesis. -/
def configLineMatch (line : List Nat) :
    Option (List Nat × List Nat × List Nat × Option (List Nat)) :=
  (splitsList line).findSome? (fun p1 =>
    if p1.2.take 2 = colonSpTok then
      (splitsList (p1.2.drop 2)).findSome? (fun p2 =>
        if p2.2.take 2 = spParenTok then
          (splitsList (p2.2.drop 2)).findSome? (fun p3 =>
            (matchTailOpt p3.2).map (fun g4 => (p1.1, p2.1, p3.1, g4)))
        else none)
    else none)

/-- Session state of LoggingSpaceProtocol that the modelled macros read
or write: the console echo flag, the stored status byte, and the device
modelled as an oracle of decoded replies, one per exchange (none is a
timeout).  The log file contents and the telemetry cache are outside the
model; no claim below reads them. -/
structure Session where
  echo : Bool
  status : Option Nat
  device : List (Option (Data × Nat))

/-- Take the next oracle reply off the device. -/
def popDevice (s : Session) : Option (Data × Nat) × Session :=
  match s.device with
  | [] => (none, s)
  | d :: rest => (d, { s with device := rest })

/-- LoggingSpaceProtocol.send_message: log the command text (rendering
can raise), encode the packet (oversize raises), then exchange with the
device; a reply stores its status byte and is rendered for the log, a
timeout leaves the status untouched and returns none. -/
def sendMessageL (devAddr : Nat) (cmd : Data) (s : Session) :
    Except Err (Option Data) × Session :=
  match toText cmd with
  | Except.error e => (Except.error e, s)
  | Except.ok _ =>
    match toPacket devAddr cmd with
    | Except.error e => (Except.error e, s)
    | Except.ok _ =>
      let pop := popDevice s
      match pop.1 with
      | none => (Except.ok none, pop.2)
      | some (reply, st) =>
        let s2 := { pop.2 with status := some st }
        match toText reply with
        | Except.error e => (Except.error e, s2)
        | Except.ok _ => (Except.ok (some reply), s2)

/-- SpaceProtocol.send_text as used through the logging wrapper: parse
the line, reject a trailing remainder, exchange, and render any reply. -/
def sendTextL (fuel : Nat) (parser : Parser) (devAddr : Nat) (line : List Nat)
    (s : Session) : Except Err (Option (List Nat)) × Session :=
  match fromText fuel parser line with
  | Except.error e => (Except.error e, s)
  | Except.ok (msg, rest) =>
    if rest ≠ [] then (Except.error Err.parseError, s)
    else
      match sendMessageL devAddr msg s with
      | (Except.error e, s2) => (Except.error e, s2)
      | (Except.ok none, s2) => (Except.ok none, s2)
      | (Except.ok (some reply), s2) =>
        match toText reply with
        | Except.error e => (Except.error e, s2)
        | Except.ok t => (Except.ok (some t), s2)

/-- run_line as invoked from inside the scripted macros: the lines these
macros issue are comments, pauses or wire commands, so the recursive
macro, flash and config branches (never reached from them) are cut off
with the fuel marker. -/
def runLineW (fuel : Nat) (parser : Parser) (macros : List (List Nat × List Nat))
    (devAddr : Nat) (line : List Nat) (s : Session) :
    Except Err (Option (List Nat)) × Session :=
  match runLineAction macros line with
  | LineAction.ignored => (Except.ok none, s)
  | LineAction.pauseAct arg =>
    match pyFloat arg with
    | none => (Except.error Err.parseError, s)
    | some _ => (Except.ok none, s)
  | LineAction.wireAct l => sendTextL fuel parser devAddr l s
  | _ => (Except.error Err.fuelOut, s)

/-- The try-finally wrapper shared by flash_binary, load_config and
save_config: remember the echo flag, run the body with echo suppressed,
and restore the remembered flag on the way out, also when the body
raised. -/
def withEcho {α : Type} (body : Session → Except Err α × Session) (s : Session) :
    Except Err α × Session :=
  let orig := s.echo
  let r := body { s with echo := false }
  (r.1, { r.2 with echo := orig })

/-- Bytes of the text "syspoke ". -/
def syspokeTok : List Nat := [115, 121, 115, 112, 111, 107, 101, 32]

/-- Bytes of the text "syspoke_ack ". -/
def syspokeAckTok : List Nat := [115, 121, 115, 112, 111, 107, 101, 95, 97, 99, 107, 32]

/-- Hexadecimal digit characters of a natural number, most significant
first. -/
def natHexBE (n : Nat) : List Nat :=
  (Nat.digits 16 n).reverse.map hexDigitChar

/-- The 0x-prefixed, zero-padded eight-digit hex form of the f-string
used by flash_binary for addresses. -/
def hex08 (n : Nat) : List Nat :=
  let ds := if n = 0 then [48] else natHexBE n
  [48, 120] ++ List.replicate (8 - ds.length) 48 ++ ds

/-- str.join with a single-character separator. -/
def joinSep (sep : Nat) : List (List Nat) → List Nat
  | [] => []
  | [x] => x
  | x :: rest => x ++ sep :: joinSep sep rest

/-- The piece loop of flash_binary: build each syspoke command line, run
it, and require the reply to mirror the ack with address and length; any
other reply raises SpaceError. -/
def flashBodyLoop (fuel : Nat) (parser : Parser) (macros : List (List Nat × List Nat))
    (devAddr : Nat) (base : Nat) : List Nat → Session → Except Err Unit × Session
  | [], s => (Except.ok (), s)
  | c :: rest, s =>
    let piece := (c :: rest).take 64
    let cmd := syspokeTok ++ hex08 base ++ [32] ++ joinSep 32 (piece.map natToDec)
    match runLineW fuel parser macros devAddr cmd s with
    | (Except.error e, s2) => (Except.error e, s2)
    | (Except.ok reply, s2) =>
      let expected := syspokeAckTok ++ natToDec base ++ [32] ++ natToDec piece.length
      if reply ≠ some expected then (Except.error Err.spaceError, s2)
      else flashBodyLoop fuel parser macros devAddr (base + 64) ((c :: rest).drop 64) s2
termination_by l => l.length
decreasing_by simp <;> omega

/-- LoggingSpaceProtocol.flash_binary: the piece loop wrapped in the
echo-suppressing try-finally. -/
def flashBinaryM (fuel : Nat) (parser : Parser) (macros : List (List Nat × List Nat))
    (devAddr : Nat) (address : Nat) (data : List Nat) (s : Session) :
    Except Err Unit × Session :=
  withEcho (fun s0 => flashBodyLoop fuel parser macros devAddr address data s0) s

/-- Python field indexing of a parsed piece: lists index their fields
(IndexError out of range), other pieces are not subscriptable. -/
def dataIdx : Data → Nat → Except Err Data
  | Data.listD fs _, i =>
    match fs.get? i with
    | some d => Except.ok d
    | none => Except.error Err.indexError
  | Data.msgD fs _ _, i =>
    match fs.get? i with
    | some d => Except.ok d
    | none => Except.error Err.indexError
  | _, _ => Except.error Err.typeError

/-- Python truthiness of a parsed piece: a list is its non-emptiness,
anything else is truthy. -/
def dataBool : Data → Bool
  | Data.listD fs _ => !fs.isEmpty
  | Data.msgD fs _ _ => !fs.isEmpty
  | _ => true

/-- Python len of a parsed piece (lists only). -/
def dataLen : Data → Except Err Nat
  | Data.listD fs _ => Except.ok fs.length
  | Data.msgD fs _ _ => Except.ok fs.length
  | _ => Except.error Err.typeError

/-- Split a text at every newline, as str.split. -/
def splitOn (sep : Nat) : List Nat → List (List Nat)
  | [] => [[]]
  | c :: rest =>
    let r := splitOn sep rest
    if c = sep then [] :: r
    else
      match r with
      | h :: t => (c :: h) :: t
      | [] => [[c]]

/-- Bytes of the text "cerase ". -/
def ceraseSpTok : List Nat := [99, 101, 114, 97, 115, 101, 32]

/-- Bytes of the text "cerase". -/
def ceraseTok : List Nat := [99, 101, 114, 97, 115, 101]

/-- Bytes of the text "cerase_ack ". -/
def ceraseAckSpTok : List Nat := [99, 101, 114, 97, 115, 101, 95, 97, 99, 107, 32]

/-- Bytes of the text "cvalue". -/
def cvalueTok : List Nat := [99, 118, 97, 108, 117, 101]

/-- Bytes of the text "cstring". -/
def cstringTok : List Nat := [99, 115, 116, 114, 105, 110, 103]

/-- Bytes of the text "sysver". -/
def sysverTok : List Nat := [115, 121, 115, 118, 101, 114]

/-- Bytes of the text "all". -/
def allTok : List Nat := [97, 108, 108]

/-- The per-line body of load_config: skip blank and comment lines, match
the snapshot grammar (SpaceError otherwise), choose cstring for quoted
values, run a cerase first when no override is recorded, then issue the
command and check the reply's recorded default. -/
def loadBodyLines (fuel : Nat) (parser : Parser) (macros : List (List Nat × List Nat))
    (devAddr : Nat) : List (List Nat) → Session → Except Err Unit × Session
  | [], s => (Except.ok (), s)
  | line :: rest, s =>
    if line = [] ∨ line.head? = some 35 then loadBodyLines fuel parser macros devAddr rest s
    else
      match configLineMatch line with
      | none => (Except.error Err.spaceError, s)
      | some (g1, g2, _g3, g4) =>
        let cmdName := if g2.head? = some 34 ∨ g2.head? = some 39 then cstringTok else cvalueTok
        let command := cmdName ++ [32] ++ g1 ++ [32] ++ g2
        let afterOverride : Except Err (List Nat) × Session :=
          if (g4.getD []) ≠ [] then (Except.ok (command ++ [32] ++ g4.getD []), s)
          else
            match runLineW fuel parser macros devAddr (ceraseSpTok ++ g1) s with
            | (Except.error e, s2) => (Except.error e, s2)
            | (Except.ok reply, s2) =>
              if reply = none ∨ reply = some [] ∨ reply = some ceraseAckSpTok then
                (Except.error Err.spaceError, s2)
              else (Except.ok command, s2)
        match afterOverride with
        | (Except.error e, s2) => (Except.error e, s2)
        | (Except.ok cmd2, s2) =>
          match fromText fuel parser cmd2 with
          | Except.error e => (Except.error e, s2)
          | Except.ok (msg, _) =>
            match sendMessageL devAddr msg s2 with
            | (Except.error e, s3) => (Except.error e, s3)
            | (Except.ok none, s3) => (Except.error Err.spaceError, s3)
            | (Except.ok (some reply), s3) =>
              match (do
                  let a ← dataIdx reply 1
                  let b ← dataIdx a 1
                  dataIdx b 1 : Except Err Data) with
              | Except.error Err.indexError => (Except.error Err.spaceError, s3)
              | Except.error e => (Except.error e, s3)
              | Except.ok dflt =>
                match toText dflt with
                | Except.error e => (Except.error e, s3)
                | Except.ok _ => loadBodyLines fuel parser macros devAddr rest s3

/-- LoggingSpaceProtocol.load_config: the line loop wrapped in the
echo-suppressing try-finally. -/
def loadConfigM (fuel : Nat) (parser : Parser) (macros : List (List Nat × List Nat))
    (devAddr : Nat) (config : List Nat) (s : Session) : Except Err Unit × Session :=
  withEcho (fun s0 => loadBodyLines fuel parser macros devAddr (splitOn 10 config) s0) s

/-- The first parser of a pair or message parser, as the attribute access
self.parser.first_parser. -/
def firstParserOf : Parser → Option Parser
  | Parser.pairP f _ _ _ => some f
  | Parser.msgP f _ _ _ _ => some f
  | _ => none

/-- The second-parser table of a pair or message parser. -/
def secondsOf : Parser → Option (List (Nat × Option Parser))
  | Parser.pairP _ _ sc _ => some sc
  | Parser.msgP _ _ sc _ _ => some sc
  | _ => none

/-- The lookup tables of an identifier parser. -/
def identTablesOf : Parser → Option (List (Nat × List Nat) × List (List Nat × Nat)) :=
  fun p =>
    match p with
    | Parser.identP ctl ltc => some (ctl, ltc)
    | _ => none

/-- Insertion of a code-label pair into a code-sorted list. -/
def insertByKey (p : Nat × List Nat) : List (Nat × List Nat) → List (Nat × List Nat)
  | [] => [p]
  | q :: rest => if p.1 ≤ q.1 then p :: q :: rest else q :: insertByKey p rest

/-- Code-sorted items of the identifier table, as sorted(dict.items()). -/
def sortByKey : List (Nat × List Nat) → List (Nat × List Nat)
  | [] => []
  | p :: rest => insertByKey p (sortByKey rest)

/-- Render one snapshot line from the two or three reply values. -/
def saveRenderLine (label : List Nat) (params : Data) : Except Err (List Nat) := do
  let n ← dataLen params
  if n = 2 then do
    let t0 ← dataIdx params 0
    let t1 ← dataIdx params 1
    let r0 ← toText t0
    let r1 ← toText t1
    Except.ok (label ++ colonSpTok ++ r0 ++ spParenTok.drop 1 ++ [40] ++ r1 ++ [41])
  else if n = 3 then do
    let t0 ← dataIdx params 0
    let t1 ← dataIdx params 1
    let t2 ← dataIdx params 2
    let r0 ← toText t0
    let r1 ← toText t1
    let r2 ← toText t2
    Except.ok (label ++ colonSpTok ++ r0 ++ [32, 40] ++ r1 ++ arrowTok ++ r2 ++ [41])
  else Except.error Err.spaceError

/-- The per-parameter loop of save_config: query the numeric form, retry
as a string when the value list is empty, skip parameters the device does
not answer for, and serialize each reply. -/
def saveFields (fuel : Nat) (parser : Parser) (devAddr : Nat) :
    List (Nat × List Nat) → Session → Except Err (List (List Nat)) × Session
  | [], s => (Except.ok [], s)
  | (_, label) :: rest, s =>
    if label = allTok then saveFields fuel parser devAddr rest s
    else
      match fromText fuel parser (cvalueTok ++ [32] ++ label) with
      | Except.error e => (Except.error e, s)
      | Except.ok (msg, _) =>
        match sendMessageL devAddr msg s with
        | (Except.error e, s2) => (Except.error e, s2)
        | (Except.ok none, s2) => saveFields fuel parser devAddr rest s2
        | (Except.ok (some reply), s2) =>
          match (do
              let a ← dataIdx reply 1
              dataIdx a 1 : Except Err Data) with
          | Except.error Err.indexError => (Except.error Err.spaceError, s2)
          | Except.error e => (Except.error e, s2)
          | Except.ok params =>
            if dataBool params then
              match saveRenderLine label params with
              | Except.error e => (Except.error e, s2)
              | Except.ok line =>
                match saveFields fuel parser devAddr rest s2 with
                | (Except.error e, s3) => (Except.error e, s3)
                | (Except.ok lines, s3) => (Except.ok (line :: lines), s3)
            else
              match fromText fuel parser (cstringTok ++ [32] ++ label) with
              | Except.error e => (Except.error e, s2)
              | Except.ok (msg2, _) =>
                match sendMessageL devAddr msg2 s2 with
                | (Except.error e, s3) => (Except.error e, s3)
                | (Except.ok none, s3) => (Except.error Err.spaceError, s3)
                | (Except.ok (some reply2), s3) =>
                  match (do
                      let a ← dataIdx reply2 1
                      dataIdx a 1 : Except Err Data) with
                  | Except.error Err.indexError => (Except.error Err.spaceError, s3)
                  | Except.error e => (Except.error e, s3)
                  | Except.ok params2 =>
                    match saveRenderLine label params2 with
                    | Except.error e => (Except.error e, s3)
                    | Except.ok line =>
                      match saveFields fuel parser devAddr rest s3 with
                      | (Except.error e, s4) => (Except.error e, s4)
                      | (Except.ok lines, s4) => (Except.ok (line :: lines), s4)

/-- The body of save_config: run sysver for the header, reach into the
message parser for the cerase identifier table (attribute and dict access
model the source's hack, with the matching exceptions), and loop over the
sorted parameter labels; the header's wall-clock timestamp is outside the
model, so only the parameter lines are returned. -/
def saveBody (fuel : Nat) (parser : Parser) (macros : List (List Nat × List Nat))
    (devAddr : Nat) (s : Session) : Except Err (List (List Nat)) × Session :=
  match runLineW fuel parser macros devAddr sysverTok s with
  | (Except.error e, s1) => (Except.error e, s1)
  | (Except.ok _, s1) =>
    match firstParserOf parser with
    | none => (Except.error Err.attrError, s1)
    | some fp =>
      match identTablesOf fp with
      | none => (Except.error Err.attrError, s1)
      | some (_, ltc) =>
        match alookup ltc ceraseTok with
        | none => (Except.error Err.keyError, s1)
        | some ceraseCode =>
          match secondsOf parser with
          | none => (Except.error Err.attrError, s1)
          | some seconds =>
            match alookup seconds ceraseCode with
            | none => (Except.error Err.keyError, s1)
            | some secondOpt =>
              match secondOpt.bind identTablesOf with
              | none => (Except.error Err.attrError, s1)
              | some (ctl, _) => saveFields fuel parser devAddr (sortByKey ctl) s1

/-- LoggingSpaceProtocol.save_config: the parameter loop wrapped in the
echo-suppressing try-finally. -/
def saveConfigM (fuel : Nat) (parser : Parser) (macros : List (List Nat × List Nat))
    (devAddr : Nat) (s : Session) : Except Err (List (List Nat)) × Session :=
  withEcho (fun s0 => saveBody fuel parser macros devAddr s0) s

/-- Bytes of the text "echo". -/
def echoTok : List Nat := [101, 99, 104, 111]

/-- Bytes of the text "echo_ack". -/
def echoAckTok : List Nat := [101, 99, 104, 111, 95, 97, 99, 107]

/-- The message-type identifier table get_protocol builds for a catalog
holding the echo command of ace_common (code 0x04, reply 0x05): each add
registers the canonical label and its decimal alias. -/
def wTypeTable : Parser :=
  Parser.identP [(4, echoTok), (5, echoAckTok)]
    [(echoTok, 4), ([52], 4), (echoAckTok, 5), ([53], 5)]

/-- The echo payload parser of ace_common: a list of bytes. -/
def wByteList : Parser := Parser.listP (Parser.intP 8 false 32) none 32

/-- The message parser get_protocol builds for that catalog: request and
reply parsers registered under their codes, the request with the
registered 0.020 second deadline, the reply with none. -/
def wParser : Parser :=
  Parser.msgP wTypeTable none [(4, some wByteList), (5, some wByteList)]
    [(4, some (1 / 50 : ℚ)), (5, none)] 32

/-- The parsed empty ping message. -/
def wPingMsg : Data := Data.msgD [Data.emptyD pingLabel] 32 (some MINIMUM_DEADLINE)

/-- A well-formed empty reply packet at address 5 (status 0, CRC 0x7572). -/
def wPacket : List Nat := [0x1A, 0xCE, 0xB5, 0x00, 0x00, 0x72, 0x75]

/-- A reply packet at address 5 whose envelope (sync, address, length,
CRC 0x4874) is valid but whose one-byte body 0xFF is no registered
message type. -/
def cexPacket : List Nat := [0x1A, 0xCE, 0xB5, 0x00, 0x01, 0xFF, 0x74, 0x48]

/-- The serial reads delivering wPacket one byte per poll. -/
def wIncoming : List (Option Nat) :=
  [some 0x1A, some 0xCE, some 0xB5, some 0, some 0, some 0x72, some 0x75]

/-- The claim's envelope conditions on a reply packet, stated from the
spec's words: sync prefix, reply-direction byte with the session address,
length byte at most 127, total length exactly length plus seven, and the
CRC over bytes 2 up to 5 plus length equal to the trailing two bytes
little-endian. -/
def envelopeOk (a : Nat) (p : List Nat) : Prop :=
  p.take 2 = SYNC_SEQUENCE ∧
  p.getD 2 0 = 0xB0 ||| a ∧
  p.getD 4 0 ≤ 127 ∧
  p.length = p.getD 4 0 + 7 ∧
  (p.drop (5 + p.getD 4 0)).take 2 = leBytes 2 (crc16 ((p.drop 2).take (3 + p.getD 4 0)))

instance (a : Nat) (p : List Nat) : Decidable (envelopeOk a p) := by
  unfold envelopeOk
  infer_instance

/-- The claim's validity conditions on an application image, stated from
the spec's words: 64 KiB at most and under 224 KiB, the 32-bit
little-endian word at offset 32 equal to the size minus four, and the
trailing 32-bit little-endian word equal to the CRC-32 over all
preceding bytes. -/
def specAppValid (data : List Nat) : Prop :=
  64 * 1024 ≤ data.length ∧ data.length < 224 * 1024 ∧
  leVal ((data.drop 32).take 4) = data.length - 4 ∧
  leVal (data.drop (data.length - 4)) = pyCrc32 (data.take (data.length - 4))

instance (data : List Nat) : Decidable (specAppValid data) := by
  unfold specAppValid
  infer_instance

/-- The claim's validity conditions on a bootloader image: 8 KiB at most
and under 32 KiB. -/
def specBootValid (data : List Nat) : Prop :=
  8 * 1024 ≤ data.length ∧ data.length < 32 * 1024

instance (data : List Nat) : Decidable (specBootValid data) := by
  unfold specBootValid
  infer_instance

/-- The claim-side reading of an integer token, from the spec's words: a
0x or 0X prefix makes it a hex literal, whose value is wrapped into two's
complement (minus 2 to the width) when signed and at least 2 to the width
less one; otherwise it is read as a decimal literal. -/
def specIntLit (bits : Nat) (signed : Bool) (token : List Nat) : Option Int :=
  if token.take 2 = [48, 120] ∨ token.take 2 = [48, 88] then
    (pyIntHex (token.drop 2)).map
      (fun u => if signed ∧ ((2 ^ (bits - 1) : Nat) : Int) ≤ u then u - ((2 ^ bits : Nat) : Int) else u)
  else pyInt token

/-- The line "> # comment". -/
def c9cexLine : List Nat := [62, 32, 35, 32, 99, 111, 109, 109, 101, 110, 116]

/-- The line "# comment". -/
def c9cexStripped : List Nat := [35, 32, 99, 111, 109, 109, 101, 110, 116]

/-- The string value holding both quote kinds whose rendering cannot be
re-parsed: bytes of the five characters a ' b " c. -/
def c2cexBytes : List Nat := [97, 39, 98, 34, 99]

end Space
namespace Space

theorem getD_take (p : List Nat) : ∀ (k i : Nat), i < k → (p.take k).getD i 0 = p.getD i 0 := by
  induction p with
  | nil => intro k i _; simp
  | cons c rest ih =>
    intro k i hik
    match k, i with
    | k' + 1, 0 => simp
    | k' + 1, i' + 1 =>
      simp only [List.take_succ_cons, List.getD_cons_succ]
      exact ih k' i' (by omega)

theorem getD_append_left (p q : List Nat) : ∀ i, i < p.length → (p ++ q).getD i 0 = p.getD i 0 := by
  induction p with
  | nil => intro i h; simp at h
  | cons c rest ih =>
    intro i h
    match i with
    | 0 => simp
    | i' + 1 =>
      simp only [List.cons_append, List.getD_cons_succ]
      refine ih i' ?_
      simp at h
      omega

/-- Characterization of the frame decoder: the envelope conditions decide
between a decode attempt and the incomplete/invalid return; a body that
fails to parse or leaves a remainder propagates an exception. -/
theorem fromPacket_char (fuel : Nat) (parser : Parser) (a : Nat) (p : List Nat) :
    fromPacket fuel parser a p =
      if envelopeOk a p then
        match fromBinary fuel parser ((p.drop 5).take (p.getD 4 0)) with
        | Except.ok (m, []) => Except.ok (some (m, p.getD 3 0))
        | Except.ok (_, _ :: _) => Except.error Err.assertError
        | Except.error e => Except.error e
      else Except.ok none := by
  by_cases henv : envelopeOk a p
  · rw [if_pos henv]
    obtain ⟨h1, h2, h3, h4, h5⟩ := henv
    unfold fromPacket
    rw [if_neg (by push_neg; exact ⟨by omega, h1, h2⟩)]
    rw [if_neg (by push_neg; exact ⟨by simp only [MAX_MESSAGE_SIZE]; omega, h4⟩)]
    rw [if_neg (by rw [← h5]; simp)]
    cases hr : fromBinary fuel parser ((p.drop 5).take (p.getD 4 0)) with
    | error e => rfl
    | ok r =>
      obtain ⟨m, rest⟩ := r
      cases rest with
      | nil => rfl
      | cons x xs => rfl
  · rw [if_neg henv]
    unfold fromPacket
    by_cases hA : p.length < 7 ∨ p.take 2 ≠ SYNC_SEQUENCE ∨ p.getD 2 0 ≠ (0xB0 ||| a)
    · rw [if_pos hA]
    · rw [if_neg hA]
      push_neg at hA
      obtain ⟨hA1, hA2, hA3⟩ := hA
      by_cases hB : MAX_MESSAGE_SIZE < p.getD 4 0 ∨ p.length ≠ p.getD 4 0 + 7
      · rw [if_pos hB]
      · rw [if_neg hB]
        push_neg at hB
        by_cases hC : leBytes 2 (crc16 ((p.drop 2).take (3 + p.getD 4 0))) ≠
            (p.drop (5 + p.getD 4 0)).take 2
        · rw [if_pos hC]
        · exact absurd
            ⟨hA2, hA3, by simp only [MAX_MESSAGE_SIZE] at hB; omega, hB.2, (not_not.mp hC).symm⟩ henv

end Space

namespace Space

/-- C1 (amended): the frame decoder returns a parsed (message, status)
pair exactly when the envelope conditions hold and the body parses with
zero remainder; when an envelope condition fails it returns the
incomplete/invalid result; but when the envelope is valid and the body
fails to parse (or leaves a remainder), a parser exception propagates
instead of the incomplete/invalid result. -/
theorem c1_envelope_decode (fuel : Nat) (parser : Parser) (a : Nat) (p : List Nat) :
    fromPacket fuel parser a p =
      if envelopeOk a p then
        match fromBinary fuel parser ((p.drop 5).take (p.getD 4 0)) with
        | Except.ok (m, []) => Except.ok (some (m, p.getD 3 0))
        | Except.ok (_, _ :: _) => Except.error Err.assertError
        | Except.error e => Except.error e
      else Except.ok none :=
  fromPacket_char fuel parser a p

/-- C1 counterexample: a packet whose envelope is fully valid but whose
body byte 0xFF is unregistered makes the decoder raise IdentifierUnknown,
not return the claimed (None, None). -/
theorem c1_counterexample :
    envelopeOk 5 cexPacket ∧
    fromPacket 2 wParser 5 cexPacket = Except.error Err.identifierUnknown :=
  ⟨by decide, rfl⟩

/-- C3 counterexample: encoding the empty ping message at address 5
produces the bytes 1A CE A5 00 65 53, not the 1A CE A5 00 5F 31 the claim
records. -/
theorem c3_counterexample :
    toPacket 5 wPingMsg = Except.ok [0x1A, 0xCE, 0xA5, 0x00, 0x65, 0x53] ∧
    toPacket 5 wPingMsg ≠ Except.ok [0x1A, 0xCE, 0xA5, 0x00, 0x5F, 0x31] := by
  have h : toPacket 5 wPingMsg = Except.ok [0x1A, 0xCE, 0xA5, 0x00, 0x65, 0x53] := rfl
  refine ⟨h, ?_⟩
  rw [h]
  intro hc
  have h2 := Except.ok.inj hc
  simp at h2

/-- C3 (amended): the frame CRC is binascii's CRC-16/XMODEM with initial
value 0xFFFF xor-ed with 0xACE1 (the XMODEM identification pinned by the
standard check value over the digits one to nine), the encoder appends it
little-endian over the bytes from the direction/address byte through the
last body byte, and the ping frame at address 5 is 1A CE A5 00 65 53. -/
theorem c3_crc_and_ping :
    (∀ d : List Nat, crc16 d = crcHqx d 0xFFFF ^^^ 0xACE1) ∧
    crcHqx [0x31, 0x32, 0x33, 0x34, 0x35, 0x36, 0x37, 0x38, 0x39] 0 = 0x31C3 ∧
    (∀ a m mb, toBinary m = Except.ok mb → mb.length ≤ 127 →
      toPacket a m = Except.ok
        (SYNC_SEQUENCE ++ ((0xA0 ||| a) :: mb.length :: mb) ++
          leBytes 2 (crc16 ((0xA0 ||| a) :: mb.length :: mb)))) ∧
    toPacket 5 wPingMsg = Except.ok [0x1A, 0xCE, 0xA5, 0x00, 0x65, 0x53] := by
  refine ⟨fun _ => rfl, by decide, fun a m mb hmb hlen => ?_, rfl⟩
  unfold toPacket
  rw [hmb]
  simp only [Bind.bind, Except.bind]
  rw [if_neg (by simp only [MAX_MESSAGE_SIZE]; omega)]

/-- C4: the decoder is monotone over prefixes of a well-formed reply
packet: every strict prefix decodes as incomplete, the full buffer
decodes to the same parsed pair, and any buffer extended past the packet
is invalid. -/
theorem c4_prefix_monotone (fuel : Nat) (parser : Parser) (a : Nat) (p : List Nat)
    (m : Data) (st : Nat) (k : Nat)
    (hwf : fromPacket fuel parser a p = Except.ok (some (m, st)))
    (hk : k < p.length) :
    fromPacket fuel parser a (p.take k) = Except.ok none ∧
    fromPacket fuel parser a (p.take p.length) = Except.ok (some (m, st)) ∧
    ∀ extra, extra ≠ [] → fromPacket fuel parser a (p ++ extra) = Except.ok none := by
  have hchar := fromPacket_char fuel parser a p
  rw [hwf] at hchar
  by_cases henv : envelopeOk a p
  · have h4 : p.length = p.getD 4 0 + 7 := henv.2.2.2.1
    refine ⟨?_, ?_, ?_⟩
    · have hnot : ¬ envelopeOk a (p.take k) := by
        intro henv'
        have h4' := henv'.2.2.2.1
        have hlen : (p.take k).length = k := by
          simp only [List.length_take]
          omega
        rw [hlen] at h4'
        by_cases h7 : k < 7
        · omega
        · have hg : (p.take k).getD 4 0 = p.getD 4 0 := getD_take p k 4 (by omega)
          rw [hg] at h4'
          omega
      rw [fromPacket_char fuel parser a (p.take k), if_neg hnot]
    · rw [List.take_length]
      exact hwf
    · intro extra hne
      have hnot : ¬ envelopeOk a (p ++ extra) := by
        intro henv2
        have h4'' := henv2.2.2.2.1
        have hg : (p ++ extra).getD 4 0 = p.getD 4 0 := getD_append_left p extra 4 (by omega)
        have hlen2 : (p ++ extra).length = p.length + extra.length := by simp
        have hpos : extra.length ≠ 0 := by simpa using hne
        rw [hg, hlen2] at h4''
        omega
      rw [fromPacket_char fuel parser a (p ++ extra), if_neg hnot]
  · rw [if_neg henv] at hchar
    exact absurd hchar.symm (by simp)

/-- C4 witness: the empty reply packet at address 5 decodes whole, every
strict prefix is incomplete, and an extended buffer is invalid. -/
theorem c4_witness :
    fromPacket 1 wParser 5 wPacket = Except.ok (some (wPingMsg, 0)) ∧
    (3 : Nat) < wPacket.length ∧
    fromPacket 1 wParser 5 (wPacket.take 3) = Except.ok none ∧
    fromPacket 1 wParser 5 (wPacket.take wPacket.length) = Except.ok (some (wPingMsg, 0)) ∧
    fromPacket 1 wParser 5 (wPacket ++ [0]) = Except.ok none := by
  have h : fromPacket 1 wParser 5 wPacket = Except.ok (some (wPingMsg, 0)) := rfl
  have hk : (3 : Nat) < wPacket.length := by decide
  have hres := c4_prefix_monotone 1 wParser 5 wPacket wPingMsg 0 3 h hk
  exact ⟨h, hk, hres.1, hres.2.1, hres.2.2 [0] (by decide)⟩

end Space

namespace Space

theorem c6list (us : Option (List Nat)) (spf : Nat) :
    ∀ fuel bs, bs.length + 2 ≤ fuel → bs.length % 4 ≠ 0 →
      fromBinaryList fuel (Parser.floatP us spf) none bs = Except.error Err.structError := by
  intro fuel
  induction fuel with
  | zero => intro bs h1 h2; omega
  | succ f ih =>
    intro bs h1 h2
    match bs with
    | [] => simp at h2
    | b :: rest =>
      obtain ⟨f2, rfl⟩ : ∃ f2, f = f2 + 1 := ⟨f - 1, by simp at h1; omega⟩
      rw [fromBinaryList]
      rw [if_neg (by simp)]
      show (do
        let r ← fromBinary (f2 + 1) (Parser.floatP us spf) (b :: rest)
        let rs ← fromBinaryList (f2 + 1) (Parser.floatP us spf) (Option.map (fun n => n - 1) none) r.2
        Except.ok (r.1 :: rs.1, rs.2)) = Except.error Err.structError
      rw [show fromBinary (f2 + 1) (Parser.floatP us spf) (b :: rest) =
          floatFromBinary us (b :: rest) from rfl]
      unfold floatFromBinary
      by_cases hlt : (b :: rest).length < 4
      · rw [if_pos hlt]
        rfl
      · rw [if_neg hlt]
        have hrec := ih ((b :: rest).drop 4)
          (by simp only [List.length_drop, List.length_cons] at h1 hlt ⊢; omega)
          (by simp only [List.length_drop, List.length_cons] at h2 hlt ⊢; omega)
        simp only [Option.map_none', Bind.bind, Except.bind]
        rw [hrec]

/-- C6 (amended): a binary input whose length does not divide into
four-byte float elements makes the float-list parse fail, but with the
low-level struct unpack error, not the library's parse-error kind. -/
theorem c6_residue_struct_error :
    ∀ us spf sp fuel bs, bs.length + 2 ≤ fuel → bs.length % 4 ≠ 0 →
      fromBinary (fuel + 1) (Parser.listP (Parser.floatP us spf) none sp) bs =
        Except.error Err.structError := by
  intro us spf sp fuel bs h1 h2
  rw [show fromBinary (fuel + 1) (Parser.listP (Parser.floatP us spf) none sp) bs =
      (do
        let r ← fromBinaryList fuel (Parser.floatP us spf) none bs
        Except.ok (Data.listD r.1 sp, r.2)) from rfl]
  rw [c6list us spf fuel bs h1 h2]
  rfl

/-- C6 witness: three stray bytes into a float list fail with the struct
error. -/
theorem c6_witness :
    fromBinary 6 (Parser.listP (Parser.floatP none 32) none 32) [0, 0, 0] =
      Except.error Err.structError :=
  c6_residue_struct_error none 32 32 5 [0, 0, 0] (by decide) (by decide)

/-- C6 counterexample: the failure kind on a short residue is the struct
unpack error, which is not the parse-error kind the claim states. -/
theorem c6_counterexample :
    fromBinary 4 (Parser.listP (Parser.floatP none 32) none 32) [0, 0, 0] =
      Except.error Err.structError ∧ Err.structError ≠ Err.parseError :=
  ⟨rfl, by decide⟩

/-- C8: the flash macro validates its preconditions before any syspoke is
issued: commands are produced exactly when the claim's image conditions
hold, and any violation raises the error before a command exists. -/
theorem c8_flash_preconditions :
    (∀ data, (∃ cs, flashAppCmds data = Except.ok cs) ↔ specAppValid data) ∧
    (∀ data, ¬ specAppValid data → flashAppCmds data = Except.error Err.spaceError) ∧
    (∀ data, (∃ cs, flashBootCmds data = Except.ok cs) ↔ specBootValid data) ∧
    (∀ data, ¬ specBootValid data → flashBootCmds data = Except.error Err.spaceError) := by
  have happ : ∀ data, (∃ cs, flashAppCmds data = Except.ok cs) ↔ specAppValid data := by
    intro data
    unfold flashAppCmds specAppValid
    constructor
    · intro ⟨cs, hcs⟩
      by_cases h1 : data.length < 64 * 1024 ∨ (256 - 32) * 1024 ≤ data.length
      · rw [if_pos h1] at hcs; exact absurd hcs (by simp)
      · rw [if_neg h1] at hcs
        push_neg at h1
        by_cases h2 : leVal ((data.drop 32).take 4) ≠ data.length - 4 ∨
            leVal (data.drop (data.length - 4)) ≠ pyCrc32 (data.take (data.length - 4))
        · rw [if_pos h2] at hcs; exact absurd hcs (by simp)
        · push_neg at h2
          exact ⟨by omega, by omega, h2.1, h2.2⟩
    · intro ⟨hv1, hv2, hv3, hv4⟩
      rw [if_neg (by push_neg; omega)]
      rw [if_neg (by push_neg; exact ⟨hv3, hv4⟩)]
      exact ⟨_, rfl⟩
  have hboot : ∀ data, (∃ cs, flashBootCmds data = Except.ok cs) ↔ specBootValid data := by
    intro data
    unfold flashBootCmds specBootValid
    constructor
    · intro ⟨cs, hcs⟩
      by_cases h1 : data.length < 8 * 1024 ∨ 32 * 1024 ≤ data.length
      · rw [if_pos h1] at hcs; exact absurd hcs (by simp)
      · push_neg at h1; exact ⟨by omega, by omega⟩
    · intro ⟨hv1, hv2⟩
      rw [if_neg (by push_neg; omega)]
      exact ⟨_, rfl⟩
  refine ⟨happ, fun data h => ?_, hboot, fun data h => ?_⟩
  · unfold flashAppCmds
    by_cases h1 : data.length < 64 * 1024 ∨ (256 - 32) * 1024 ≤ data.length
    · rw [if_pos h1]
    · rw [if_neg h1]
      by_cases h2 : leVal ((data.drop 32).take 4) ≠ data.length - 4 ∨
          leVal (data.drop (data.length - 4)) ≠ pyCrc32 (data.take (data.length - 4))
      · rw [if_pos h2]
      · push_neg at h1 h2
        exact absurd ⟨by omega, by omega, h2.1, h2.2⟩ h
  · unfold flashBootCmds
    by_cases h1 : data.length < 8 * 1024 ∨ 32 * 1024 ≤ data.length
    · rw [if_pos h1]
    · push_neg at h1
      exact absurd ⟨by omega, by omega⟩ h

/-- C9 counterexample: the line "> # comment" is dispatched as a wire
command carrying "# comment", not ignored as the claim states. -/
theorem c9_counterexample :
    runLineAction [] c9cexLine = LineAction.wireAct c9cexStripped ∧
    runLineAction [] c9cexLine ≠ LineAction.ignored := by
  constructor
  · decide
  · decide

/-- C9 (amended): the classifier ignores blank, hash and less-than lines;
a leading greater-than sign is stripped and the remainder goes only
through the macro, pause, flash, flashboot, cload, csave and wire rules —
the comment rules are not re-applied, and that second stage never
ignores a line. -/
theorem c9_classifier :
    (∀ macros raw, (pyStrip raw = [] ∨ (pyStrip raw).head? = some 35 ∨
        (pyStrip raw).head? = some 60) →
      runLineAction macros raw = LineAction.ignored) ∧
    (∀ macros raw t, pyStrip raw = 62 :: t →
      runLineAction macros raw = classifyTail macros (pyStrip t)) ∧
    (∀ macros l, classifyTail macros l ≠ LineAction.ignored) ∧
    (∀ macros raw, pyStrip raw ≠ [] → (pyStrip raw).head? ≠ some 35 →
        (pyStrip raw).head? ≠ some 60 → (pyStrip raw).head? ≠ some 62 →
      runLineAction macros raw = classifyTail macros (pyStrip raw)) := by
  refine ⟨fun macros raw h => ?_, fun macros raw t h => ?_, fun macros l => ?_,
    fun macros raw h1 h2 h3 h4 => ?_⟩
  · unfold runLineAction
    rw [if_pos h]
  · unfold runLineAction
    rw [h]
    rw [if_neg (by simp)]
    rw [if_pos (by simp)]
    simp
  · unfold classifyTail
    cases alookup macros l with
    | some body => simp
    | none => split_ifs <;> simp
  · unfold runLineAction
    rw [if_neg (by tauto)]
    rw [if_neg h4]

/-- C10: flash_binary, load_config and save_config each restore the
caller's echo flag on every exit path: the state after the call carries
the echo value from before the call, whatever the image data, config
text, parser and device replies were. -/
theorem c10_echo_restored :
    ∀ fuel parser macros devAddr address data cfg s,
      ((flashBinaryM fuel parser macros devAddr address data s).2.echo = s.echo) ∧
      ((loadConfigM fuel parser macros devAddr cfg s).2.echo = s.echo) ∧
      ((saveConfigM fuel parser macros devAddr s).2.echo = s.echo) := by
  intro fuel parser macros devAddr address data cfg s
  exact ⟨rfl, rfl, rfl⟩

end Space

namespace Space

/-- C7: the reply-wait loop stores the status byte only when a frame
decodes: when it returns the timeout result the stored status is exactly
the prior value, and when it returns a message the final status is the
status byte of the decoded reply frame. -/
theorem c7_status (fuel : Nat) (parser : Parser) (a : Nat) :
    ∀ incoming buf st0 r st',
      sendLoop fuel parser a incoming buf st0 = Except.ok (r, st') →
      (r = none → st' = st0) ∧
      (∀ m, r = some m → ∃ bufx s, st' = some s ∧
        fromPacket fuel parser a bufx = Except.ok (some (m, s))) := by
  intro incoming
  induction incoming with
  | nil =>
    intro buf st0 r st' h
    simp only [sendLoop] at h
    obtain ⟨hr, hst⟩ := Prod.mk.injEq .. ▸ Except.ok.inj h
    constructor
    · intro _; exact hst.symm
    · intro m hm; rw [← hr] at hm; exact absurd hm (by simp)
  | cons o rest ih =>
    intro buf st0 r st' h
    cases o with
    | none => exact ih buf st0 r st' h
    | some b =>
      simp only [sendLoop] at h
      cases hfp : fromPacket fuel parser a (buf ++ [b]) with
      | error e => rw [hfp] at h; exact absurd h (by simp)
      | ok o2 =>
        rw [hfp] at h
        cases o2 with
        | none => exact ih (buf ++ [b]) st0 r st' h
        | some pr =>
          obtain ⟨m0, s0⟩ := pr
          obtain ⟨hr, hst⟩ := Prod.mk.injEq .. ▸ Except.ok.inj h
          constructor
          · intro hnone; rw [← hr] at hnone; exact absurd hnone (by simp)
          · intro m hm
            rw [← hr] at hm
            obtain rfl : m0 = m := by simpa using hm
            exact ⟨buf ++ [b], s0, hst.symm, hfp⟩

/-- C7 witness: the loop over the reply bytes of the empty reply stores
status 0; the loop over polls with no data returns the timeout result
with the prior status 42 untouched. -/
theorem c7_witness :
    sendLoop 1 wParser 5 wIncoming [] (some 42) = Except.ok (some wPingMsg, some 0) ∧
    sendLoop 1 wParser 5 [none, none] [] (some 42) = Except.ok (none, some 42) ∧
    (some 42 : Option Nat) = some 42 ∧
    (∃ bufx s, (some 0 : Option Nat) = some s ∧
      fromPacket 1 wParser 5 bufx = Except.ok (some (wPingMsg, s))) := by
  have h1 : sendLoop 1 wParser 5 wIncoming [] (some 42) = Except.ok (some wPingMsg, some 0) := rfl
  have h2 : sendLoop 1 wParser 5 [none, none] [] (some 42) = Except.ok (none, some 42) := rfl
  exact ⟨h1, h2,
    (c7_status 1 wParser 5 [none, none] [] (some 42) none (some 42) h2).1 rfl,
    (c7_status 1 wParser 5 wIncoming [] (some 42) (some wPingMsg) (some 0) h1).2 wPingMsg rfl⟩

theorem splitFirst_eq_none (sep : Nat) : ∀ l : List Nat, ¬ sep ∈ l → splitFirst sep l = none := by
  intro l
  induction l with
  | nil => intro _; rfl
  | cons c rest ih =>
    intro h
    unfold splitFirst
    rw [if_neg (by intro hc; exact h (hc ▸ List.mem_cons_self c rest))]
    rw [ih (fun hm => h (List.mem_cons_of_mem c hm))]
    rfl

/-- C5: integer text decoding of a separator-free token for a registered
width: the token is read as a decimal literal, or as a 0x/0X hex literal
wrapped into two's complement under signed mode; a value outside the
width's interval fails with the parameter-invalid error, and a
non-number fails with the parse-error error. -/
theorem c5_int_text (bits : Nat) (signed : Bool) (token : List Nat) (fuel : Nat)
    (hb : bits = 8 ∨ bits = 16 ∨ bits = 32 ∨ bits = 64)
    (hsep : ¬ 32 ∈ token) :
    fromText (fuel + 1) (Parser.intP bits signed 32) token =
      match specIntLit bits signed token with
      | none => Except.error Err.parseError
      | some v =>
        if (if signed then -((2 ^ (bits - 1) : Nat) : Int) else 0) ≤ v ∧
            v ≤ (if signed then ((2 ^ (bits - 1) : Nat) : Int) - 1 else ((2 ^ bits : Nat) : Int) - 1)
        then Except.ok (Data.intD v bits signed, [])
        else Except.error Err.parameterInvalid := by
  rw [show fromText (fuel + 1) (Parser.intP bits signed 32) token =
      intFromText bits signed 32 token from rfl]
  unfold intFromText specIntLit
  have hsplit : sepSplit 32 token = (token, []) := by
    unfold sepSplit
    rw [splitFirst_eq_none 32 token hsep]
    rfl
  rw [hsplit]
  simp only [decide_eq_true_eq]
  cases hv : (if token.take 2 = [48, 120] ∨ token.take 2 = [48, 88] then
      (pyIntHex (token.drop 2)).map
        (fun u : Int =>
          if signed ∧ ((2 ^ (bits - 1) : Nat) : Int) ≤ u then u - ((2 ^ bits : Nat) : Int) else u)
    else pyInt token) with
  | none => rfl
  | some v =>
    unfold mkIntegerData intMinOf intMaxOf
    show Except.map (fun d => (d, ([] : List Nat)))
        (if (if signed then -((2 ^ (bits - 1) : Nat) : Int) else 0) ≤ v ∧
            v ≤ (if signed then ((2 ^ (bits - 1) : Nat) : Int) - 1 else ((2 ^ bits : Nat) : Int) - 1)
          then Except.ok (Data.intD v bits signed)
          else Except.error Err.parameterInvalid) =
      if (if signed then -((2 ^ (bits - 1) : Nat) : Int) else 0) ≤ v ∧
          v ≤ (if signed then ((2 ^ (bits - 1) : Nat) : Int) - 1 else ((2 ^ bits : Nat) : Int) - 1)
        then Except.ok (Data.intD v bits signed, ([] : List Nat))
        else Except.error Err.parameterInvalid
    split_ifs <;> rfl

/-- C5 witness: the signed 16-bit hex token 0x8000 wraps to -32768, which
is in range, so it decodes. -/
theorem c5_witness :
    fromText 1 (Parser.intP 16 true 32) [48, 120, 56, 48, 48, 48] =
      Except.ok (Data.intD (-32768) 16 true, []) := by
  have h := c5_int_text 16 true [48, 120, 56, 48, 48, 48] 0
    (Or.inr (Or.inl rfl)) (by decide)
  rw [h]
  rfl

end Space

namespace Space

theorem digitsValGo_digits (L : List Nat) : ∀ acc, (∀ d ∈ L, d < 10) →
    digitsValGo decDigitVal 10 acc (L.map (fun d => d + 48)) =
      some (L.foldl (fun a d => a * 10 + d) acc) := by
  induction L with
  | nil => intro acc _; rfl
  | cons d rest ih =>
    intro acc h
    have hd : d < 10 := h d (List.mem_cons_self d rest)
    simp only [List.map_cons, List.foldl_cons]
    unfold digitsValGo
    rw [if_neg (by omega)]
    have hdv : decDigitVal (d + 48) = some d := by
      unfold decDigitVal
      rw [if_pos (by omega)]
      exact congrArg some (by omega)
    rw [hdv]
    exact ih (acc * 10 + d) (fun x hx => h x (List.mem_cons_of_mem d hx))

theorem foldr_ofDigits (L : List Nat) :
    L.foldr (fun d a => a * 10 + d) 0 = Nat.ofDigits 10 L := by
  induction L with
  | nil => rfl
  | cons d rest ih =>
    simp only [List.foldr_cons, Nat.ofDigits_cons, ih]
    ring

theorem foldl_digits_eq (n : Nat) :
    ((Nat.digits 10 n).reverse).foldl (fun a d => a * 10 + d) 0 = n := by
  rw [List.foldl_reverse]
  have : (Nat.digits 10 n).foldr (fun d a => a * 10 + d) 0 = Nat.ofDigits 10 (Nat.digits 10 n) :=
    foldr_ofDigits (Nat.digits 10 n)
  rw [show (fun (x : Nat) (y : Nat) => y * 10 + x) = (fun d a => a * 10 + d) from rfl, this]
  exact Nat.ofDigits_digits 10 n

theorem natToDec_digits (n : Nat) : ∀ c ∈ natToDec n, 48 ≤ c ∧ c ≤ 57 := by
  intro c hc
  unfold natToDec at hc
  by_cases h0 : n = 0
  · rw [if_pos h0] at hc
    simp at hc
    omega
  · rw [if_neg h0] at hc
    unfold natDigitsBE at hc
    obtain ⟨d, hd, rfl⟩ := List.mem_map.mp hc
    have : d < 10 := Nat.digits_lt_base (by norm_num) (List.mem_reverse.mp hd)
    omega

theorem intToDec_chars (v : Int) : ∀ c ∈ intToDec v, c = 45 ∨ (48 ≤ c ∧ c ≤ 57) := by
  intro c hc
  unfold intToDec at hc
  by_cases hneg : v < 0
  · rw [if_pos hneg] at hc
    rcases List.mem_cons.mp hc with h | h
    · exact Or.inl h
    · exact Or.inr (natToDec_digits v.natAbs c h)
  · rw [if_neg hneg] at hc
    exact Or.inr (natToDec_digits v.toNat c hc)

theorem dropWhile_eq_self_of_none (p : Nat → Bool) (l : List Nat)
    (h : ∀ c ∈ l, p c = false) : l.dropWhile p = l := by
  cases l with
  | nil => rfl
  | cons c rest =>
    rw [List.dropWhile_cons, if_neg (by rw [h c (List.mem_cons_self c rest)]; simp)]

theorem pyStrip_eq_self (l : List Nat) (h : ∀ c ∈ l, isPyWs c = false) : pyStrip l = l := by
  unfold pyStrip
  rw [dropWhile_eq_self_of_none _ l h]
  rw [dropWhile_eq_self_of_none _ l.reverse (fun c hc => h c (List.mem_reverse.mp hc))]
  exact List.reverse_reverse l

theorem digitsVal_natToDec (n : Nat) : digitsVal decDigitVal 10 (natToDec n) = some n := by
  by_cases h0 : n = 0
  · subst h0; rfl
  · unfold natToDec
    rw [if_neg h0]
    unfold natDigitsBE
    have hne : Nat.digits 10 n ≠ [] := Nat.digits_ne_nil_iff_ne_zero.mpr h0
    obtain ⟨d, L', hL⟩ : ∃ d L', (Nat.digits 10 n).reverse = d :: L' := by
      cases hrev : (Nat.digits 10 n).reverse with
      | nil => exact absurd (by simpa using hrev) hne
      | cons d L' => exact ⟨d, L', rfl⟩
    have hdig : ∀ x ∈ (Nat.digits 10 n).reverse, x < 10 := fun x hx =>
      Nat.digits_lt_base (by norm_num) (List.mem_reverse.mp hx)
    rw [hL]
    rw [hL] at hdig
    simp only [List.map_cons]
    have hd10 : d < 10 := hdig d (List.mem_cons_self d L')
    have hdv : decDigitVal (d + 48) = some d := by
      unfold decDigitVal
      rw [if_pos (by omega)]
      exact congrArg some (by omega)
    rw [show digitsVal decDigitVal 10 ((d + 48) :: L'.map (fun d => d + 48)) =
        (match decDigitVal (d + 48) with
          | some d0 => digitsValGo decDigitVal 10 d0 (L'.map (fun d => d + 48))
          | none => none) from rfl]
    rw [hdv]
    show digitsValGo decDigitVal 10 d (L'.map (fun d => d + 48)) = some n
    rw [digitsValGo_digits L' d (fun x hx => hdig x (List.mem_cons_of_mem d hx))]
    have hfd := foldl_digits_eq n
    rw [hL] at hfd
    simp only [List.foldl_cons] at hfd
    rw [show (0 : Nat) * 10 + d = d from by omega] at hfd
    rw [hfd]

theorem natToDec_ne_nil (n : Nat) : natToDec n ≠ [] := by
  unfold natToDec
  by_cases h0 : n = 0
  · rw [if_pos h0]; simp
  · rw [if_neg h0]
    unfold natDigitsBE
    simp only [ne_eq, List.map_eq_nil_iff, List.reverse_eq_nil_iff]
    exact Nat.digits_ne_nil_iff_ne_zero.mpr h0

theorem pyInt_intToDec (v : Int) : pyInt (intToDec v) = some v := by
  have hnows : ∀ c ∈ intToDec v, isPyWs c = false := by
    intro c hc
    rcases intToDec_chars v c hc with h | h <;> (unfold isPyWs; simp; omega)
  unfold pyInt pyIntCore
  rw [pyStrip_eq_self (intToDec v) hnows]
  by_cases hneg : v < 0
  · have hform : intToDec v = 45 :: natToDec v.natAbs := by
      unfold intToDec
      rw [if_pos hneg]
    rw [hform]
    show (match digitsVal decDigitVal 10 (natToDec v.natAbs) with
      | none => none
      | some n => some (-(n : Int))) = some v
    rw [digitsVal_natToDec]
    exact congrArg some (by omega)
  · have hform : intToDec v = natToDec v.toNat := by
      unfold intToDec
      rw [if_neg hneg]
    cases hc : natToDec v.toNat with
    | nil => exact absurd hc (natToDec_ne_nil v.toNat)
    | cons c rest =>
      have hcd : 48 ≤ c ∧ c ≤ 57 :=
        natToDec_digits v.toNat c (hc ▸ List.mem_cons_self c rest)
      rw [hform, hc]
      simp only [List.head?_cons, List.tail_cons]
      rw [if_neg (by simp; omega)]
      have hdv2 := digitsVal_natToDec v.toNat
      rw [hc] at hdv2
      rw [hdv2]
      show some (if some c = some 45 then -(v.toNat : Int) else (v.toNat : Int)) = some v
      rw [if_neg (by intro h; simp at h; omega)]
      exact congrArg some (by omega)

end Space

namespace Space

theorem mem_of_mem_take2 {c : Nat} {l : List Nat} (h : c ∈ l.take 2) : c ∈ l :=
  List.mem_of_mem_take h

theorem intToDec_not_hex (v : Int) :
    ¬ ((intToDec v).take 2 = [48, 120] ∨ (intToDec v).take 2 = [48, 88]) := by
  intro h
  have h120 : (120 : Nat) ∈ intToDec v ∨ (88 : Nat) ∈ intToDec v := by
    rcases h with h | h
    · exact Or.inl (mem_of_mem_take2 (h ▸ (by simp : (120 : Nat) ∈ [48, 120])))
    · exact Or.inr (mem_of_mem_take2 (h ▸ (by simp : (88 : Nat) ∈ [48, 88])))
  rcases h120 with h | h <;> rcases intToDec_chars v _ h with h2 | h2 <;> omega

theorem intToDec_no_sep (v : Int) : ¬ (32 : Nat) ∈ intToDec v := by
  intro h
  rcases intToDec_chars v 32 h with h2 | h2 <;> omega

theorem int_text_roundtrip (bits : Nat) (signed : Bool) (v : Int) (fuel : Nat)
    (h1 : intMinOf bits signed ≤ v) (h2 : v ≤ intMaxOf bits signed) :
    toText (Data.intD v bits signed) = Except.ok (intToDec v) ∧
    fromText (fuel + 1) (Parser.intP bits signed 32) (intToDec v) =
      Except.ok (Data.intD v bits signed, []) := by
  refine ⟨rfl, ?_⟩
  rw [show fromText (fuel + 1) (Parser.intP bits signed 32) (intToDec v) =
      intFromText bits signed 32 (intToDec v) from rfl]
  unfold intFromText
  have hsplit : sepSplit 32 (intToDec v) = (intToDec v, []) := by
    unfold sepSplit
    rw [splitFirst_eq_none 32 (intToDec v) (intToDec_no_sep v)]
    rfl
  rw [hsplit]
  simp only [decide_eq_true_eq]
  rw [if_neg (intToDec_not_hex v)]
  rw [pyInt_intToDec]
  show Except.map (fun d => (d, ([] : List Nat))) (mkIntegerData v bits signed) =
    Except.ok (Data.intD v bits signed, [])
  unfold mkIntegerData
  rw [if_pos ⟨h1, h2⟩]
  rfl

theorem leBytes_length (w : Nat) : ∀ x, (leBytes w x).length = w := by
  induction w with
  | zero => intro x; rfl
  | succ w ih => intro x; simp only [leBytes, List.length_cons, ih]

theorem leVal_leBytes (w : Nat) : ∀ x, x < 256 ^ w → leVal (leBytes w x) = x := by
  induction w with
  | zero => intro x hx; interval_cases x; rfl
  | succ w ih =>
    intro x hx
    simp only [leBytes, leVal]
    rw [ih (x / 256) (by
      have : 256 ^ (w + 1) = 256 ^ w * 256 := by ring
      omega)]
    omega

theorem int_binary_roundtrip (bits : Nat) (signed : Bool) (v : Int) (fuel : Nat)
    (hb : bits = 8 ∨ bits = 16 ∨ bits = 32 ∨ bits = 64)
    (h1 : intMinOf bits signed ≤ v) (h2 : v ≤ intMaxOf bits signed) :
    toBinary (Data.intD v bits signed) =
      Except.ok (leBytes (bits / 8) (v % (2 ^ bits : Nat)).toNat) ∧
    fromBinary (fuel + 1) (Parser.intP bits signed 32)
        (leBytes (bits / 8) (v % (2 ^ bits : Nat)).toNat) =
      Except.ok (Data.intD v bits signed, []) := by
  have hbnd1 : (if signed = true then -((2 ^ (bits - 1) : Nat) : Int) else 0) ≤ v := by
    unfold intMinOf at h1
    exact h1
  have hbnd2 : v ≤ (if signed = true then ((2 ^ (bits - 1) : Nat) : Int) - 1
      else ((2 ^ bits : Nat) : Int) - 1) := by
    unfold intMaxOf at h2
    split_ifs at h2 ⊢ <;> (push_cast at h2 ⊢; omega)
  constructor
  · rw [show toBinary (Data.intD v bits signed) = packInt v bits signed from rfl]
    unfold packInt
    rw [if_neg (not_not.mpr hb)]
    rw [if_pos ⟨h1, h2⟩]
  · rw [show fromBinary (fuel + 1) (Parser.intP bits signed 32)
        (leBytes (bits / 8) (v % (2 ^ bits : Nat)).toNat) =
      intFromBinary bits signed (leBytes (bits / 8) (v % (2 ^ bits : Nat)).toNat) from rfl]
    unfold intFromBinary
    rw [if_neg (not_not.mpr hb)]
    have hw8 : (bits + 7) / 8 = bits / 8 := by rcases hb with rfl | rfl | rfl | rfl <;> rfl
    have hlen : (leBytes (bits / 8) (v % (2 ^ bits : Nat)).toNat).length = bits / 8 :=
      leBytes_length (bits / 8) _
    rw [hw8]
    rw [if_neg (by omega)]
    rw [List.take_of_length_le (by omega), List.drop_eq_nil_of_le (by omega)]
    have hmod : (v % ((2 ^ bits : Nat) : Int)).toNat < 256 ^ (bits / 8) := by
      rcases hb with rfl | rfl | rfl | rfl <;> (push_cast; omega)
    rw [leVal_leBytes (bits / 8) _ hmod]
    have harith : (if signed = true ∧ (2 ^ (bits - 1) : Nat) ≤ (v % ((2 ^ bits : Nat) : Int)).toNat
        then ((v % ((2 ^ bits : Nat) : Int)).toNat : Int) - ((2 ^ bits : Nat) : Int)
        else ((v % ((2 ^ bits : Nat) : Int)).toNat : Int)) = v := by
      cases signed with
      | false =>
        rw [if_neg (by simp)]
        rw [if_neg (by simp)] at hbnd1
        rw [if_neg (by simp)] at hbnd2
        rcases hb with rfl | rfl | rfl | rfl <;> (push_cast at hbnd1 hbnd2 ⊢; omega)
      | true =>
        rw [if_pos rfl] at hbnd1
        rw [if_pos rfl] at hbnd2
        rcases hb with rfl | rfl | rfl | rfl <;>
          (push_cast at hbnd1 hbnd2
           by_cases hv : 0 ≤ v
           · rw [if_neg (by push_neg; intro _; push_cast; omega)]
             push_cast
             omega
           · rw [if_pos ⟨rfl, by push_cast; omega⟩]
             push_cast
             omega)
    show Except.map (fun d => (d, ([] : List Nat)))
        (mkIntegerData
          (if signed = true ∧ (2 ^ (bits - 1) : Nat) ≤ (v % ((2 ^ bits : Nat) : Int)).toNat
            then ((v % ((2 ^ bits : Nat) : Int)).toNat : Int) - ((2 ^ bits : Nat) : Int)
            else ((v % ((2 ^ bits : Nat) : Int)).toNat : Int)) bits signed) =
      Except.ok (Data.intD v bits signed, [])
    rw [harith]
    unfold mkIntegerData
    rw [if_pos ⟨h1, h2⟩]
    rfl

end Space

namespace Space

theorem splitFirst_append_sep (sep : Nat) : ∀ l r : List Nat, ¬ sep ∈ l →
    splitFirst sep (l ++ sep :: r) = some (l, r) := by
  intro l
  induction l with
  | nil =>
    intro r _
    simp only [List.nil_append]
    unfold splitFirst
    rw [if_pos rfl]
  | cons c rest ih =>
    intro r h
    simp only [List.cons_append]
    unfold splitFirst
    have hcs : ¬ c = sep := fun hc => h (by rw [← hc]; exact List.mem_cons_self c rest)
    rw [if_neg hcs, ih r (fun hm => h (List.mem_cons_of_mem c hm))]
    rfl

theorem hexDigitChar_ne_quote (d : Nat) :
    48 ≤ hexDigitChar d ∧ hexDigitChar d ≠ 39 ∧ hexDigitChar d ≠ 34 ∧ hexDigitChar d ≠ 92 := by
  unfold hexDigitChar
  split_ifs <;> omega

theorem hexDigitVal_hexDigitChar (d : Nat) (h : d < 16) :
    hexDigitVal (hexDigitChar d) = some d := by
  unfold hexDigitChar hexDigitVal
  split_ifs <;> first
  | (exact congrArg some (by omega))
  | omega

theorem quote_not_mem_escAscii (q c : Nat) (hq : q = 39 ∨ q = 34) (hc : c ≠ q) :
    ¬ q ∈ escAscii q c := by
  have hx1 := hexDigitChar_ne_quote (c / 16 % 16)
  have hx2 := hexDigitChar_ne_quote (c % 16)
  unfold escAscii
  split_ifs with h1 h2 h3 h4 h5 <;> intro hm <;> simp at hm
  · rcases hm with h' | h'
    · omega
    · exact hc h'.symm
  · omega
  · omega
  · omega
  · omega
  · rcases hm with rfl | rfl | rfl | rfl <;> omega

/-- Reduction of the escape decoder on a hex escape prefix. -/
theorem evalInner_x (r2 : List Nat) : evalInner (92 :: 120 :: r2) =
    match hexTake r2 with
    | some vr => (evalInner vr.2).map (vr.1 :: ·)
    | none => none := by
  rw [evalInner.eq_def]
  norm_num
  split
  · rename_i vr h
    rw [h]
  · rename_i h
    rw [h]

/-- One rendered escape chunk decodes back to its character in front of
whatever follows. -/
theorem evalInner_chunk (q c : Nat) (hq : q = 39 ∨ q = 34) (hc : c < 128) (hne : c ≠ q)
    (rest : List Nat) :
    evalInner (escAscii q c ++ rest) = (evalInner rest).map (c :: ·) := by
  unfold escAscii
  split_ifs with h1 h2 h3 h4 h5
  · rcases h1 with rfl | rfl
    · rcases hq with rfl | rfl <;> simp [evalInner]
    · simp [evalInner]
  · subst h2
    simp [evalInner]
  · subst h3
    simp [evalInner]
  · subst h4
    simp [evalInner]
  · have h92 : c ≠ 92 := fun hh => h1 (Or.inr hh)
    simp only [List.singleton_append]
    rw [evalInner.eq_def]
    simp [h92]
  · have hhex : hexTake (hexDigitChar (c / 16 % 16) :: hexDigitChar (c % 16) :: rest) =
        some (c, rest) := by
      have hd1 : hexDigitVal (hexDigitChar (c / 16 % 16)) = some (c / 16 % 16) :=
        hexDigitVal_hexDigitChar _ (by omega)
      have hd2 : hexDigitVal (hexDigitChar (c % 16)) = some (c % 16) :=
        hexDigitVal_hexDigitChar _ (by omega)
      simp only [hexTake, hd1, hd2]
      rw [show 16 * (c / 16 % 16) + c % 16 = c by omega]
    simp only [List.cons_append, List.nil_append]
    rw [evalInner_x, hhex]

end Space

namespace Space

theorem encodeUtf8Char_ascii (c : Nat) (h : c < 128) : encodeUtf8Char c = [c] := by
  unfold encodeUtf8Char
  rw [if_pos h]

theorem encodeUtf8_ascii : ∀ bs : List Nat, (∀ c ∈ bs, c < 128) → encodeUtf8 bs = bs
  | [], _ => rfl
  | c :: rest, h => by
    have h1 := h c (List.mem_cons_self c rest)
    have ih := encodeUtf8_ascii rest (fun x hx => h x (List.mem_cons_of_mem c hx))
    show encodeUtf8Char c ++ (rest.map encodeUtf8Char).flatten = c :: rest
    rw [encodeUtf8Char_ascii c h1]
    rw [show (rest.map encodeUtf8Char).flatten = encodeUtf8 rest from rfl, ih]
    rfl

theorem evalInner_flatten (q : Nat) (hq : q = 39 ∨ q = 34) :
    ∀ bs : List Nat, (∀ c ∈ bs, c < 128) → (∀ c ∈ bs, c ≠ q) →
      evalInner ((bs.map (escAscii q)).flatten) = some bs
  | [], _, _ => by simp [evalInner]
  | c :: rest, h1, h2 => by
    have hc := h1 c (List.mem_cons_self c rest)
    have hne := h2 c (List.mem_cons_self c rest)
    have ih := evalInner_flatten q hq rest (fun x hx => h1 x (List.mem_cons_of_mem c hx))
      (fun x hx => h2 x (List.mem_cons_of_mem c hx))
    show evalInner (escAscii q c ++ (rest.map (escAscii q)).flatten) = some (c :: rest)
    rw [evalInner_chunk q c hq hc hne, ih]
    rfl

theorem reprQuote_cases (bs : List Nat) : reprQuote bs = 39 ∨ reprQuote bs = 34 := by
  unfold reprQuote
  split_ifs <;> simp

theorem reprQuote_not_mem (bs : List Nat) (h : ¬ (39 ∈ bs ∧ 34 ∈ bs)) :
    ¬ reprQuote bs ∈ bs := by
  unfold reprQuote
  split_ifs with h1
  · exact h1.2
  · intro h39
    push_neg at h1
    exact h ⟨h39, h1 h39⟩

theorem quote_not_mem_flatten (q : Nat) (hq : q = 39 ∨ q = 34) (bs : List Nat)
    (h2 : ∀ c ∈ bs, c ≠ q) : ¬ q ∈ (bs.map (escAscii q)).flatten := by
  intro hm
  rw [List.mem_flatten] at hm
  obtain ⟨l, hl, hql⟩ := hm
  rw [List.mem_map] at hl
  obtain ⟨c, hc, rfl⟩ := hl
  exact quote_not_mem_escAscii q c hq (h2 c hc) hql

theorem str_binary_roundtrip (bs : List Nat) (fuel : Nat) (sep : Nat)
    (h : ¬ (0 : Nat) ∈ bs) :
    toBinary (Data.strD bs) = Except.ok (bs ++ [0]) ∧
    fromBinary (fuel + 1) (Parser.strP sep) (bs ++ [0]) =
      Except.ok (Data.strD bs, []) := by
  constructor
  · rfl
  · show strFromBinary (bs ++ [0]) = Except.ok (Data.strD bs, [])
    unfold strFromBinary
    rw [splitFirst_append_sep 0 bs [] h]

theorem str_text_roundtrip (bs : List Nat) (fuel : Nat)
    (h1 : ∀ c ∈ bs, c < 128) (h2 : ¬ (39 ∈ bs ∧ 34 ∈ bs)) :
    toText (Data.strD bs) = Except.ok (pyReprAscii bs) ∧
    fromText (fuel + 1) (Parser.strP 32) (pyReprAscii bs) =
      Except.ok (Data.strD bs, []) := by
  have hq := reprQuote_cases bs
  have hqm := reprQuote_not_mem bs h2
  have hne : ∀ c ∈ bs, c ≠ reprQuote bs := fun c hc he => hqm (he ▸ hc)
  have hall : bs.all (fun c => decide (c < 128)) = true := by
    rw [List.all_eq_true]
    intro x hx
    exact decide_eq_true (h1 x hx)
  have hqm2 : quoteMatch (pyReprAscii bs) =
      some (reprQuote bs :: (bs.map (escAscii (reprQuote bs))).flatten ++ [reprQuote bs],
        []) := by
    show quoteMatch (reprQuote bs ::
      ((bs.map (escAscii (reprQuote bs))).flatten ++ [reprQuote bs])) = _
    simp only [quoteMatch]
    rw [if_pos hq]
    rw [splitFirst_append_sep (reprQuote bs) _ [] (quote_not_mem_flatten _ hq bs hne)]
    rfl
  have hlit : evalPyStrLit (reprQuote bs ::
      (bs.map (escAscii (reprQuote bs))).flatten ++ [reprQuote bs]) = some bs := by
    simp only [List.cons_append, evalPyStrLit]
    rw [if_pos ⟨hq, by rw [List.getLast?_concat]⟩]
    rw [List.dropLast_concat]
    exact evalInner_flatten (reprQuote bs) hq bs h1 hne
  constructor
  · have he : toText (Data.strD bs) =
        if bs.all (· < 128) then Except.ok (pyReprAscii bs)
        else Except.error Err.unicodeUnmodelled := rfl
    rw [he, if_pos hall]
  · have e1 : fromText (fuel + 1) (Parser.strP 32) (pyReprAscii bs) =
        strFromText 32 (pyReprAscii bs) := rfl
    rw [e1]
    simp only [strFromText, hqm2, hlit, encodeUtf8_ascii bs h1]

end Space

namespace Space

/-- C2 (amended): rendered values round-trip for the cases where the code
actually restores the value: every in-range integer round-trips through
its decimal text and its little-endian binary; every null-free byte
string round-trips through binary; and every ASCII string that does not
contain both quote characters round-trips through the repr text form.
The spec's unconditional claim fails for strings containing both quote
kinds (see the counterexample). -/
theorem c2_value_roundtrips :
    (∀ bits signed v fuel, (bits = 8 ∨ bits = 16 ∨ bits = 32 ∨ bits = 64) →
      intMinOf bits signed ≤ v → v ≤ intMaxOf bits signed →
      toText (Data.intD v bits signed) = Except.ok (intToDec v) ∧
      fromText (fuel + 1) (Parser.intP bits signed 32) (intToDec v) =
        Except.ok (Data.intD v bits signed, []) ∧
      toBinary (Data.intD v bits signed) =
        Except.ok (leBytes (bits / 8) (v % (2 ^ bits : Nat)).toNat) ∧
      fromBinary (fuel + 1) (Parser.intP bits signed 32)
          (leBytes (bits / 8) (v % (2 ^ bits : Nat)).toNat) =
        Except.ok (Data.intD v bits signed, [])) ∧
    (∀ bs fuel sep, ¬ (0 : Nat) ∈ bs →
      toBinary (Data.strD bs) = Except.ok (bs ++ [0]) ∧
      fromBinary (fuel + 1) (Parser.strP sep) (bs ++ [0]) =
        Except.ok (Data.strD bs, [])) ∧
    (∀ bs fuel, (∀ c ∈ bs, c < 128) → ¬ (39 ∈ bs ∧ 34 ∈ bs) →
      toText (Data.strD bs) = Except.ok (pyReprAscii bs) ∧
      fromText (fuel + 1) (Parser.strP 32) (pyReprAscii bs) =
        Except.ok (Data.strD bs, [])) := by
  refine ⟨?_, ?_, ?_⟩
  · intro bits signed v fuel hb h1 h2
    obtain ⟨ht1, ht2⟩ := int_text_roundtrip bits signed v fuel h1 h2
    obtain ⟨hb1, hb2⟩ := int_binary_roundtrip bits signed v fuel hb h1 h2
    exact ⟨ht1, ht2, hb1, hb2⟩
  · intro bs fuel sep h
    exact str_binary_roundtrip bs fuel sep h
  · intro bs fuel h1 h2
    exact str_text_roundtrip bs fuel h1 h2

/-- C2 counterexample: the five-byte string a'b"c renders to the eight
text bytes of the Python literal, but parsing that rendering stops at
the escaped inner quote and fails, so the spec's unconditional text
round-trip for strings is false. -/
theorem c2_counterexample :
    toText (Data.strD c2cexBytes) =
      Except.ok [39, 97, 92, 39, 98, 34, 99, 39] ∧
    fromText 1 (Parser.strP 32) [39, 97, 92, 39, 98, 34, 99, 39] =
      Except.error Err.parseError := by
  constructor
  · rfl
  · simp [fromText, strFromText, quoteMatch, splitFirst, evalPyStrLit, evalInner]

end Space
